import Mathlib

/-!
# Tempoest day-planning DSL: a shallow embedding of the analyzer and the
  time-shift engine, with proofs about the specification's claims.

The definitions below are translated from the TypeScript sources
(`src/analyzer/analyzer.ts`, `src/types.ts`, `src/lexer/tokens.ts`,
`src/lexer/lexer.ts`, `src/lsp/time-utils.ts`,
`src/lsp/commands/time-shift.ts`, `src/lsp/parser-utils.ts`,
`src/lsp/index.ts`).  JavaScript strings are modelled as Lean `String`
(scanned as `List Char`); JS `Date` instants are modelled as `Int` minutes
on an absolute timeline (`dayBaseMinutes day + minutes-within-day`), which
preserves ordering and difference arithmetic for every comparison the
analyzer performs; diagnostics are modelled by their `code` string (the
`message` and `span` fields are carried by no claim, so they are dropped).
The chevrotain lexer (`src/lexer/tokens.ts`, `src/lexer/lexer.ts`) is
embedded as a longest-run scanner that applies the token patterns in the
declared `allTokens` order (chevrotain picks the first matching pattern,
with the `longer_alt` escape to `Identifier` for the two section-directive
keywords), and `tokenize` lexes the `preprocessLine`-corrected text, as
`tokenizeLines` does.
-/

set_option maxRecDepth 20000

namespace Tempoest

/-- JS `\s` / the character class used by `trim`, modelled by
`Char.isWhitespace` (space, tab, CR, LF). -/
def isWs (c : Char) : Bool := c.isWhitespace

/-- JS `\w`: `[A-Za-z0-9_]`. -/
def isWordChar (c : Char) : Bool := c.isAlpha || c.isDigit || c = '_'

/-- Characters allowed in a category segment: `[a-zA-Z0-9_-]`. -/
def isCatChar (c : Char) : Bool := c.isAlpha || c.isDigit || c = '_' || c = '-'

/-- JS `String.prototype.trim`, on a character list. -/
def trimL (l : List Char) : List Char :=
  ((l.dropWhile isWs).reverse.dropWhile isWs).reverse

/-- JS `String.prototype.trim`. -/
def trimS (s : String) : String := ⟨trimL s.data⟩

/-- Numeric value of a digit list, as `parseInt` on an all-digit string. -/
def digitsToNat (l : List Char) : Nat :=
  l.foldl (fun a c => a * 10 + (c.toNat - '0'.toNat)) 0

/-- `am`/`pm`/end-of-input tail of the time regexes (input lowercased). -/
def ampmOrEnd : List Char → Bool
  | [] => true
  | ['a', 'm'] => true
  | ['p', 'm'] => true
  | _ => false

/-- The first alternative of the analyzer's time regex:
`\d{1,2}(?::\d{2})?(?:am|pm)?` anchored at both ends (input lowercased).
The greedy digit run never needs backtracking here: leaving a digit behind
can only put a digit where `:`/`am`/`pm`/end is required. -/
def timeClockFull (l : List Char) : Bool :=
  let ds := l.takeWhile Char.isDigit
  let r := l.dropWhile Char.isDigit
  if ds.length = 0 || ds.length > 2 then false
  else
    match r with
    | ':' :: a :: b :: r2 => a.isDigit && b.isDigit && ampmOrEnd r2
    | _ => ampmOrEnd r

/-- `DayPlanAnalyzer.isTimePart`:
`/^(?:\d{1,2}(?::\d{2})?(?:am|pm)?|\d{2}:\d{2}|noon|midnight)$/i`.
The `\d{2}:\d{2}` alternative is subsumed by the first one. -/
def isTimePart (s : String) : Bool :=
  let low := s.data.map Char.toLower
  low = "noon".data || low = "midnight".data || timeClockFull low

/-- `DayPlanAnalyzer.isDurationPart`: `/^\d+h(?:\d{1,2}m)?|\d+m$/`.
NOTE the missing grouping in the source regex: the alternation associates
as `(^\d+h(?:\d{1,2}m)?)|(\d+m$)`, so the test passes iff the string
STARTS with `\d+h` or ENDS with a digit followed by `m`. -/
def isDurationPart (s : String) : Bool :=
  let l := s.data
  let ds := l.takeWhile Char.isDigit
  let r := l.dropWhile Char.isDigit
  (decide (ds ≠ []) && r.head? = some 'h') ||
    (match l.reverse with
     | 'm' :: c :: _ => c.isDigit
     | _ => false)

/-- Split on the first-found, non-overlapping occurrences of `"::"`,
as JS `String.prototype.split('::')`. -/
def splitOnDoubleColon : List Char → List Char → List (List Char)
  | [], acc => [acc.reverse]
  | ':' :: ':' :: r, acc => acc.reverse :: splitOnDoubleColon r []
  | c :: r, acc => splitOnDoubleColon r (c :: acc)

/-- `DayPlanAnalyzer.isCategoryPart`:
`/^:[a-zA-Z0-9_-]+(?:::[a-zA-Z0-9_-]+)*$/`, phrased through the
`"::"`-split of the text after the leading `:` (equivalent: every piece
must be a non-empty run of category characters, which also rules out any
stray single `:`). -/
def isCategoryPart (s : String) : Bool :=
  match s.data with
  | ':' :: rest =>
    (splitOnDoubleColon rest []).all fun seg =>
      decide (seg ≠ []) && seg.all isCatChar
  | _ => false

/-- `DayPlanAnalyzer.isLikelyBadDuration`:
`/^\d+[a-zA-Z]$/.test(part) && !isDurationPart(part)`. -/
def isLikelyBadDuration (s : String) : Bool :=
  let ds := s.data.takeWhile Char.isDigit
  let r := s.data.dropWhile Char.isDigit
  (decide (ds ≠ []) &&
    (match r with
     | [c] => c.isAlpha
     | _ => false)) && !isDurationPart s

/-- `DayPlanAnalyzer.isLikelyBadCategory`:
`part.startsWith(':') && !isCategoryPart(part)`. -/
def isLikelyBadCategory (s : String) : Bool :=
  s.data.head? = some ':' && !isCategoryPart s

/-- Does the list start with `":::"`? (helper for `parseCategory`). -/
def startsWithTripleColon : List Char → Bool
  | ':' :: ':' :: ':' :: _ => true
  | _ => false

/-- JS `String.prototype.includes(':::')`. -/
def containsTripleColon : List Char → Bool
  | [] => false
  | c :: r => startsWithTripleColon (c :: r) || containsTripleColon r

/-- JS `String.prototype.endsWith('::')`. -/
def endsWithDoubleColon (l : List Char) : Bool :=
  match l.reverse with
  | ':' :: ':' :: _ => true
  | _ => false

/-- `DayPlanAnalyzer.splitTaskParts`: comma/space splitting that keeps
category paths together, ported branch by branch from the character loop
(`inCategory` is cleared exactly when the current character is not `:` and
the lookahead character is not `:`). Pushed parts are `.trim()`ed and
empty parts are dropped, as in the source. -/
def splitGo : List Char → List Char → Bool → List (List Char)
  | [], current, _ =>
    if trimL current.reverse ≠ [] then [trimL current.reverse] else []
  | c :: rest, current, inCat =>
    if c = ':' then
      splitGo rest (c :: current) true
    else if c = ',' && !inCat then
      (if trimL current.reverse ≠ [] then [trimL current.reverse] else []) ++
        splitGo rest [] false
    else if c = ' ' && !inCat && decide (trimL current.reverse ≠ []) then
      trimL current.reverse :: splitGo rest [] false
    else
      let inCat' := if inCat && decide (c ≠ ':') && decide (rest.head? ≠ some ':')
        then false else inCat
      splitGo rest (c :: current) inCat'

/-- `DayPlanAnalyzer.splitTaskParts` on a string. -/
def splitTaskParts (content : String) : List String :=
  (splitGo content.data [] false).map fun l => ⟨l⟩

/-! ## Data model (`src/types.ts`) -/

/-- A diagnostic, reduced to its stable `code` string: the `message` and
`span` fields of the source `Diagnostic` are referenced by no claim. -/
structure Diag where
  code : String
deriving DecidableEq, Repr

/-- `LineStatus`. -/
inductive LineStatus where
  | valid
  | validWithWarnings
  | invalid
deriving DecidableEq, Repr

/-- `CategoryPath`. -/
structure CategoryPath where
  segments : List String
deriving DecidableEq, Repr

/-- `TaskNode`.  Instants (`start`/`endTime`, named `start`/`end` in the
source) are minutes on an absolute timeline. -/
structure TaskNode where
  title : String
  start : Option Int
  durationMin : Nat
  endTime : Option Int
  categories : List CategoryPath
  explicitStart : Bool
  explicitDuration : Bool
deriving DecidableEq, Repr

/-- `DirectiveNode` (`name` kept as the raw string; `args` is the JS
object as an insertion-ordered association list with unique keys). -/
structure DirectiveNode where
  name : String
  args : List (String × String)
deriving DecidableEq, Repr

/-- The `node` union `TaskNode | DirectiveNode`. -/
inductive Node where
  | task (t : TaskNode)
  | directive (d : DirectiveNode)
deriving DecidableEq, Repr

/-- `ParsedLine`. -/
structure ParsedLine where
  id : String
  raw : String
  lineNo : Nat
  status : LineStatus
  diagnostics : List Diag
  node : Option Node
deriving DecidableEq, Repr

/-- `overlapPolicy` values. -/
inductive OverlapPolicy where
  | warning
  | error
  | ignore
deriving DecidableEq, Repr

/-- `AnalysisContext`. -/
structure AnalysisContext where
  day : String
  timezone : Option String
  defaultDurationMin : Nat
  overlapPolicy : OverlapPolicy
deriving DecidableEq, Repr

/-- `Program`. -/
structure Program where
  context : AnalysisContext
  lines : List ParsedLine
deriving DecidableEq, Repr

/-- Section mode (`'planner' | 'scratchpad'`). -/
inductive SectionMode where
  | planner
  | scratchpad
deriving DecidableEq, Repr

/-- `RawTaskParts`. -/
structure RawTaskParts where
  time : Option String
  duration : Option String
  categories : List String
  titleParts : List String
deriving DecidableEq, Repr

/-- `RawDirectiveParts`. -/
structure RawDirectiveParts where
  name : String
  args : List (String × String)
deriving DecidableEq, Repr

/-- `ParsedLineRaw` (the `hasSpaceAfterDash` field is read by nothing
after preprocessing and is dropped). -/
structure ParsedLineRaw where
  lineNo : Nat
  raw : String
  diagnostics : List Diag
  isBlank : Bool
  isComment : Bool
  isScratchpad : Bool
  task : Option RawTaskParts
  directive : Option RawDirectiveParts
deriving DecidableEq, Repr

/-- The diagnostic codes (`ErrorCode` / `WarningCode` enums). -/
def badTimeCode : String := "E001-bad-time"
def badDurationCode : String := "E010-bad-duration"
def missingStartCode : String := "E020-missing-start-first-line"
def overlapErrorCode : String := "E030-overlap"
def unknownDirectiveCode : String := "E040-unknown-directive"
def badCategoryCode : String := "E050-bad-category"
def missingSpaceCode : String := "W001-missing-space-after-dash"
def trailingCommaCode : String := "W005-trailing-comma"
def overlapWarningCode : String := "W010-overlap"
def unknownPartCode : String := "W030-unknown-part"

/-- Error-class test `d.code.startsWith('E')`, expressed on the first
character. -/
def isErrorDiag (d : Diag) : Bool := d.code.data.head? = some 'E'

/-! ## Directive argument scanning -/

theorem dropWhile_length_le (p : Char → Bool) (l : List Char) :
    (l.dropWhile p).length ≤ l.length := by
  induction l with
  | nil => simp
  | cons c r ih =>
    by_cases h : p c
    · rw [List.dropWhile_cons_of_pos h]; simpa using Nat.le_succ_of_le ih
    · rw [List.dropWhile_cons_of_neg h]

/-- JS object insertion: update an existing key in place, else append. -/
def upsert (k v : String) : List (String × String) → List (String × String)
  | [] => [(k, v)]
  | (k', v') :: r => if k' = k then (k, v) :: r else (k', v') :: upsert k v r

/-- `argsStr.matchAll(/(\w+)=([^\s,]+)/g)`: left-to-right scan; at a
word character try to read `word '=' run-of-[^\s,]`, emit the pair and
continue after it, otherwise advance one character (advancing through the
inside of a failed word run finds no extra matches, so this equals the
regex engine's restart-at-next-index behaviour). -/
def kvScanGo : Nat → List Char → List (String × String)
  | 0, _ => []
  | _, [] => []
  | fuel + 1, c :: r =>
    if isWordChar c then
      let w := (c :: r).takeWhile isWordChar
      let r1 := (c :: r).dropWhile isWordChar
      match r1 with
      | '=' :: r2 =>
        let v := r2.takeWhile fun d => !isWs d && d ≠ ','
        let r3 := r2.dropWhile fun d => !isWs d && d ≠ ','
        if v = [] then kvScanGo fuel r
        else (⟨w⟩, ⟨v⟩) :: kvScanGo fuel r3
      | _ => kvScanGo fuel r
    else kvScanGo fuel r

/-- The scan with enough fuel for one character per attempt (each
attempt advances at least one character). -/
def kvScan (l : List Char) : List (String × String) :=
  kvScanGo l.length l

/-- Fold the scanned pairs into the JS object. -/
def buildArgs (kvs : List (String × String)) : List (String × String) :=
  kvs.foldl (fun m kv => upsert kv.1 kv.2 m) []

/-- First value of the args object (`Object.values(args)[0]`). -/
def firstArgValue (args : List (String × String)) : Option String :=
  args.head?.map (·.2)

/-- Property lookup `args.k`. -/
def lookupArg (args : List (String × String)) (k : String) : Option String :=
  (args.find? fun kv => kv.1 = k).map (·.2)

/-! ## Line-content parsing (`DayPlanAnalyzer.parseLineContent` et al.) -/

/-- `DayPlanAnalyzer.parseCategory`: reject a part ending in `::` or
containing `:::`, otherwise keep the raw part. -/
def parseCategory (part : String) : Option String :=
  if endsWithDoubleColon part.data || containsTripleColon part.data then none
  else some part

/-- Result of `parseLineContent`. -/
structure LineContent where
  task : Option RawTaskParts
  directive : Option RawDirectiveParts
  diagnostics : List Diag
deriving DecidableEq, Repr

/-- The directive branch of `parseLineContent`: `content` is known to
start with `!`; `/^!(\w+)\s*(.*)/` then either the section directives
(empty args) or `key=value` scanning with the single-value fallback
`args[name] = argsStr.trim()`.  `none` means the inner regex failed
(no word character after `!`), in which case the source falls through to
task parsing. -/
def parseDirectiveContent (content : List Char) : Option RawDirectiveParts :=
  match content with
  | '!' :: rest =>
    let name : String := ⟨rest.takeWhile isWordChar⟩
    if name.data = [] then none
    else if name = "scratchpad" || name = "planner" then
      some ⟨name, []⟩
    else
      let argsStr := (rest.dropWhile isWordChar).dropWhile isWs
      if trimL argsStr = [] then some ⟨name, []⟩
      else
        let args := buildArgs (kvScan argsStr)
        if args = [] then some ⟨name, [(name, ⟨trimL argsStr⟩)]⟩
        else some ⟨name, args⟩
  | _ => none

/-- One step of the part-classification loop in `parseLineContent`
(state: the `RawTaskParts` under construction and the diagnostics so
far; parts arrive already trimmed and non-empty from `splitTaskParts`,
matching the loop's own re-trim-and-skip). -/
def classifyPart (st : RawTaskParts × List Diag) (part : String) :
    RawTaskParts × List Diag :=
  let (task, diags) := st
  if isTimePart part then
    match task.time with
    | some _ => (task, diags ++ [⟨unknownPartCode⟩])
    | none => ({ task with time := some part }, diags)
  else if isDurationPart part then
    match task.duration with
    | some _ => (task, diags ++ [⟨unknownPartCode⟩])
    | none => ({ task with duration := some part }, diags)
  else if isCategoryPart part then
    match parseCategory part with
    | none => (task, diags ++ [⟨badCategoryCode⟩])
    | some cat => ({ task with categories := task.categories ++ [cat] }, diags)
  else if isLikelyBadCategory part then
    ({ task with titleParts := task.titleParts ++ [part] },
      diags ++ [⟨badCategoryCode⟩])
  else if isLikelyBadDuration part then
    ({ task with titleParts := task.titleParts ++ [part] },
      diags ++ [⟨badDurationCode⟩])
  else
    ({ task with titleParts := task.titleParts ++ [part] }, diags)

/-- The trailing-comma check: `content.split(/\s*[#\/]/)[0]` is the text
before the first `#` or `/` stripped of the whitespace run in front of
that marker; since the result is then `.trim()`ed, taking the plain
prefix before the first marker is equivalent. -/
def hasTrailingComma (content : List Char) : Bool :=
  let beforeComment := content.takeWhile fun c => c ≠ '#' && c ≠ '/'
  match (trimL beforeComment).reverse with
  | ',' :: _ => true
  | _ => false

/-- `DayPlanAnalyzer.parseLineContent`.  `dashMatch`/`directiveMatch`
mirror `/^\s*-\s*(.*)$/` and `/^\s*!(.*)$/`; the directive branch runs
before the scratchpad guard, and the scratchpad guard returns before any
task parsing or trailing-comma checking. -/
def lineContentOpt (line : String) : Option (List Char) :=
  match line.data.dropWhile isWs with
  | '-' :: r => some (r.dropWhile isWs)
  | '!' :: r => some ('!' :: r)
  | _ => none

def parseLineContent (line : String) (currentSection : SectionMode) :
    LineContent :=
  match lineContentOpt line with
  | none => ⟨none, none, []⟩
  | some content =>
    match (if content.head? = some '!'
           then parseDirectiveContent content else none) with
    | some d => ⟨none, some d, []⟩
    | none =>
      if currentSection = .scratchpad then ⟨none, none, []⟩
      else
        let parts := (splitGo content [] false).map fun l => (⟨l⟩ : String)
        let (task, diags) :=
          parts.foldl classifyPart (⟨none, none, [], []⟩, [])
        let diags :=
          if hasTrailingComma content then diags ++ [⟨trailingCommaCode⟩]
          else diags
        ⟨some task, none, diags⟩

/-! ## Phase 0: raw line records (`DayPlanAnalyzer.parseLinesToRaw`) -/

/-- `preprocessLine` (`src/lexer/tokens.ts`): match `/^(\s*-\s*)/`; when
the dash part does not start with `-` followed by whitespace (so also on
every indented dash line) and non-whitespace content follows it, emit
`W001-missing-space-after-dash` and inject a virtual space between the
dash part and the content.  Returns the diagnostics and the processed
line.  (`afterDash` never starts with whitespace, the greedy `\s*`
having consumed it, so the source's third conjunct is implied.) -/
def preprocessLine (line : String) : List Diag × String :=
  let ws1 := line.data.takeWhile isWs
  match line.data.dropWhile isWs with
  | '-' :: r =>
    let ws2 := r.takeWhile isWs
    let afterDash := r.dropWhile isWs
    if ¬(ws1 = [] ∧ ws2 ≠ []) ∧ afterDash ≠ [] then
      ([⟨missingSpaceCode⟩], ⟨ws1 ++ '-' :: (ws2 ++ ' ' :: afterDash)⟩)
    else ([], line)
  | _ => ([], line)

/-- The diagnostics of `preprocessLine` (what `parseLinesToRaw` copies
into the raw record). -/
def preprocessDiags (line : String) : List Diag :=
  (preprocessLine line).1

/-- `isBlank`: `line.trim() === ''`. -/
def isBlankLine (line : String) : Bool := trimL line.data = []

/-- `isComment`: `/^\s*(#|\/\/)/`. -/
def isCommentLine (line : String) : Bool :=
  match line.data.dropWhile isWs with
  | '#' :: _ => true
  | '/' :: '/' :: _ => true
  | _ => false

/-- The parse guard of `parseLinesToRaw`: not blank, not comment, and
the trimmed line starts with `-` or `!`. -/
def phase0Guard (line : String) : Bool :=
  !isBlankLine line && !isCommentLine line &&
    ((trimL line.data).head? = some '-' ||
      (trimL line.data).head? = some '!')

/-- One line of `parseLinesToRaw`: build the raw record and apply a
section directive (`scratchpad`/`planner`) immediately — the only part
of `applyDirective` reachable here, and it only moves the section.
Returns the record together with the section for the NEXT line. -/
def phase0Step (sect : SectionMode) (idx : Nat) (line : String) :
    ParsedLineRaw × SectionMode :=
  let diags0 := preprocessDiags line
  let blank := isBlankLine line
  let comment := isCommentLine line
  if phase0Guard line then
    let lc := parseLineContent line sect
    let sect' :=
      match lc.directive with
      | some d =>
        if d.name = "scratchpad" then .scratchpad
        else if d.name = "planner" then .planner
        else sect
      | none => sect
    let isScratch := lc.task.isNone && lc.directive.isNone &&
      sect = .scratchpad
    (⟨idx + 1, line, diags0 ++ lc.diagnostics, blank, comment, isScratch,
      lc.task, lc.directive⟩, sect')
  else
    (⟨idx + 1, line, diags0, blank, comment, false, none, none⟩, sect)

/-- `parseLinesToRaw` as a left-to-right pass; each element is paired
with the section mode in force BEFORE that line. -/
def phase0Go (sect : SectionMode) (idx : Nat) :
    List String → List (ParsedLineRaw × SectionMode)
  | [] => []
  | line :: rest =>
    let (rl, sect') := phase0Step sect idx line
    (rl, sect) :: phase0Go sect' (idx + 1) rest

/-- The raw line records of a document. -/
def rawLinesOf (doc : List String) : List ParsedLineRaw :=
  (phase0Go .planner 0 doc).map (·.1)

/-! ## Times, durations, the timeline -/

/-- `DayPlanAnalyzer.parseTime`, returning the raw `hours * 60 + minutes`
of the matched wall-clock value (after the am/pm adjustment), `none` when
the regex `/^(\d{1,2})(?::(\d{2}))?(?:(am|pm))?$/i` fails and neither
`noon` nor `midnight` matches.  The `Date` the source builds from this
value is only ever read back through `getHours()`/`getMinutes()`
(in `resolveTimeToDate`), which is the value modulo one day. -/
def parseTimeRawMin (s : String) : Option Nat :=
  let low : List Char := s.data.map Char.toLower
  if low = "noon".data then some (12 * 60)
  else if low = "midnight".data then some 0
  else
    let ds := low.takeWhile Char.isDigit
    let r := low.dropWhile Char.isDigit
    if ds.length = 0 || ds.length > 2 then none
    else
      let h := digitsToNat ds
      let cont : Option (Nat × List Char) :=
        match r with
        | ':' :: a :: b :: r2 =>
          if a.isDigit && b.isDigit then some (digitsToNat [a, b], r2)
          else none
        | _ => some (0, r)
      match cont with
      | none => none
      | some (m, r2) =>
        match r2 with
        | [] => some (h * 60 + m)
        | ['a', 'm'] => some ((if h = 12 then 0 else h) * 60 + m)
        | ['p', 'm'] => some ((if h ≠ 12 then h + 12 else h) * 60 + m)
        | _ => none

/-- `DayPlanAnalyzer.parseDuration` / regex `/^(?:(\d+)h)?(?:(\d+)m)?$/`:
optional hour group, optional minute group, anchored (an all-optional
regex makes the empty string parse to `0`). -/
def parseDurationMin (s : String) : Option Nat :=
  let l := s.data
  let ds := l.takeWhile Char.isDigit
  let r := l.dropWhile Char.isDigit
  let (hours, afterH) : Nat × List Char :=
    if ds ≠ [] ∧ r.head? = some 'h' then (digitsToNat ds, r.tail)
    else (0, l)
  let ds2 := afterH.takeWhile Char.isDigit
  let r2 := afterH.dropWhile Char.isDigit
  let (minutes, rest) : Nat × List Char :=
    if ds2 ≠ [] ∧ r2.head? = some 'm' then (digitsToNat ds2, r2.tail)
    else (0, afterH)
  if rest = [] then some (hours * 60 + minutes) else none

/-- `^\d{4}-\d{2}-\d{2}$` (the `day` directive's format check). -/
def isDayFormat (s : String) : Bool :=
  match s.data with
  | [y1, y2, y3, y4, '-', m1, m2, '-', d1, d2] =>
    [y1, y2, y3, y4, m1, m2, d1, d2].all Char.isDigit
  | _ => false

/-- Days from the civil epoch 1970-01-01 (Howard Hinnant's algorithm),
the day arithmetic `new Date(day + 'T00:00:00')` performs for a
well-formed `YYYY-MM-DD`. -/
def daysFromCivil (y m d : Int) : Int :=
  let y' := if m ≤ 2 then y - 1 else y
  let era := y'.fdiv 400
  let yoe := y' - era * 400
  let mp := (m + 9).emod 12
  let doy := (153 * mp + 2).fdiv 5 + d - 1
  let doe := yoe * 365 + yoe.fdiv 4 - yoe.fdiv 100 + doy
  era * 146097 + doe - 719468

/-- The timeline origin of a `YYYY-MM-DD` day string, in minutes.
A string not of that shape maps to `0` (in the source a malformed day
produces an invalid `Date`; the analyzer validates every day directive
against `^\d{4}-\d{2}-\d{2}$` first, so this case is reachable only
through the caller-supplied `today` option).  The model places the
timeline in a fixed offset zone, since no claim observes the timezone. -/
def dayBaseMinutes (day : String) : Int :=
  match day.data with
  | [y1, y2, y3, y4, '-', m1, m2, '-', d1, d2] =>
    if [y1, y2, y3, y4, m1, m2, d1, d2].all Char.isDigit then
      1440 * daysFromCivil (digitsToNat [y1, y2, y3, y4])
        (digitsToNat [m1, m2]) (digitsToNat [d1, d2])
    else 0
  | _ => 0

/-- `DayPlanAnalyzer.resolveTimeToDate`: the instant on the configured
day at the parsed time's `getHours()`/`getMinutes()` — the raw
wall-clock value modulo one day on top of the day's origin. -/
def resolveTimeToDate (ctx : AnalysisContext) (rawMin : Nat) : Int :=
  dayBaseMinutes ctx.day + (rawMin % 1440)

/-! ## Directive application (`DayPlanAnalyzer.applyDirective`) -/

/-- `applyDirective`, restricted to the `AnalysisContext` fields.
`none` models a thrown error, in which case the caller leaves the
context untouched (each throwing branch throws before writing).  The
`scratchpad`/`planner` cases write only the instance's section field,
which is consulted solely during phase 0 (handled there); they leave the
context unchanged.  `default` with no `duration` arg and `policy` with
no `overlaps` arg are silent no-ops in the source. -/
def applyDirectiveCtx (ctx : AnalysisContext) (d : RawDirectiveParts) :
    Option AnalysisContext :=
  if d.name = "scratchpad" then some ctx
  else if d.name = "planner" then some ctx
  else if d.name = "default" then
    match lookupArg d.args "duration" with
    | none => some ctx
    | some ds =>
      match parseDurationMin ds with
      | some v => if v ≠ 0 then some { ctx with defaultDurationMin := v }
                  else none
      | none => none
  else if d.name = "policy" then
    match lookupArg d.args "overlaps" with
    | none => some ctx
    | some p =>
      if p = "warning" then some { ctx with overlapPolicy := .warning }
      else if p = "error" then some { ctx with overlapPolicy := .error }
      else if p = "ignore" then some { ctx with overlapPolicy := .ignore }
      else none
  else if d.name = "day" then
    match firstArgValue d.args with
    | some v => if isDayFormat v then some { ctx with day := v } else none
    | none => none
  else if d.name = "tz" then
    some { ctx with timezone := firstArgValue d.args }
  else none

/-- Pass 1: apply every directive line to the context, in document
order, swallowing errors (`try { … } catch { }`). -/
def pass1 (ctx : AnalysisContext) (raws : List ParsedLineRaw) :
    AnalysisContext :=
  raws.foldl
    (fun c rl =>
      match rl.directive with
      | some d => (applyDirectiveCtx c d).getD c
      | none => c)
    ctx

/-! ## Line identifiers (`DayPlanAnalyzer.generateLineId`) -/

/-- JS `ToInt32` (the coercion applied by `<<` and `&`). -/
def toInt32 (n : Int) : Int := (n + 2 ^ 31).emod (2 ^ 32) - 2 ^ 31

/-- The rolling hash `((acc << 5) - acc + charCode) & 0xffffffff`
(the intermediate sum is exact in a JS double). -/
def hashStep (acc : Int) (c : Char) : Int :=
  toInt32 (toInt32 (acc * 32) - acc + (c.toNat : Int))

/-- `generateLineId`: `line_${index}_${Math.abs(hash).toString(16)}`. -/
def generateLineId (raw : String) (index : Nat) : String :=
  let h := raw.data.foldl hashStep 0
  "line_" ++ toString index ++ "_" ++ ⟨Nat.toDigits 16 h.natAbs⟩

/-! ## Pass 2 (`DayPlanAnalyzer.analyzeLine` and friends) -/

/-- The mutable analyzer state threaded through pass 2.  The instance's
`currentSection` field is consulted by nothing after phase 0
(`analyzeLine` dispatches on the precomputed raw-line flags), so it is
not carried here. -/
structure AnState where
  ctx : AnalysisContext
  cursorTime : Option Int
  tasks : List TaskNode
deriving DecidableEq, Repr

/-- `DayPlanAnalyzer.checkOverlap`: half-open interval intersection
against every previously scheduled task. -/
def checkOverlap (tasks : List TaskNode) (start «end» : Int) : Bool :=
  tasks.any fun t =>
    match t.start, t.endTime with
    | some ts, some te => start < te && «end» > ts
    | _, _ => false

/-- `DayPlanAnalyzer.parseCategories`: split each raw category after its
leading `:` on `::`; any segment that trims to nothing is a
`BAD_CATEGORY` error, otherwise the path is kept. -/
def parseCategories (cats : List String) :
    List CategoryPath × List Diag :=
  cats.foldl
    (fun acc category =>
      match category.data with
      | ':' :: rest =>
        let segs := splitOnDoubleColon rest []
        if segs.any fun s => trimL s = [] then
          (acc.1, acc.2 ++ [⟨badCategoryCode⟩])
        else
          (acc.1 ++ [⟨segs.map fun s => (⟨s⟩ : String)⟩], acc.2)
      | _ => acc)
    ([], [])

/-- `task.titleParts.join(' ').trim() || 'Untitled'`. -/
def joinTitle (parts : List String) : String :=
  if trimS (String.intercalate " " parts) = "" then "Untitled"
  else trimS (String.intercalate " " parts)

/-- `parsedTime` of `analyzeTask` (`none` = no time part; `some none` =
a part that failed to parse; `some (some v)` = parsed value). -/
def parsedTimeOf (tk : RawTaskParts) : Option (Option Nat) :=
  tk.time.map parseTimeRawMin

/-- `parsedDuration` of `analyzeTask`. -/
def parsedDurationOf (tk : RawTaskParts) : Option (Option Nat) :=
  tk.duration.map parseDurationMin

/-- The start-resolution block of `analyzeTask`: the resolved start, the
`explicitStart` flag, and the `MISSING_START_FIRST_LINE` diagnostic when
neither an explicit time nor a cursor exists. -/
def startResolution (st : AnState) (tk : RawTaskParts) :
    Option Int × Bool × List Diag :=
  match parsedTimeOf tk with
  | some (some v) => (some (resolveTimeToDate st.ctx v), true, [])
  | _ =>
    match st.cursorTime with
    | some c => (some c, false, [])
    | none => (none, false, [⟨missingStartCode⟩])

/-- The resolved start. -/
def startOf (st : AnState) (tk : RawTaskParts) : Option Int :=
  (startResolution st tk).1

/-- `durationMin`: explicit value or the context default (`??` keeps an
explicit `0`). -/
def durationMinOf (st : AnState) (tk : RawTaskParts) : Nat :=
  match parsedDurationOf tk with
  | some (some v) => v
  | _ => st.ctx.defaultDurationMin

/-- `explicitDuration`. -/
def explicitDurationOf (tk : RawTaskParts) : Bool :=
  match parsedDurationOf tk with
  | some (some _) => true
  | _ => false

/-- `end = start + durationMin` whenever the start is defined. -/
def endOf (st : AnState) (tk : RawTaskParts) : Option Int :=
  (startOf st tk).map (· + (durationMinOf st tk : Int))

/-- The overlap-check block of `analyzeTask`: one diagnostic when both
instants are defined, the policy is not `ignore`, and some scheduled
task intersects; the code follows the policy. -/
def overlapDiagsOf (st : AnState) (tk : RawTaskParts) : List Diag :=
  match startOf st tk, endOf st tk with
  | some s, some e =>
    if st.ctx.overlapPolicy ≠ .ignore ∧ checkOverlap st.tasks s e then
      [⟨if st.ctx.overlapPolicy = .error then overlapErrorCode
        else overlapWarningCode⟩]
    else []
  | _, _ => []

/-- All diagnostics of a task line, in emission order: the raw line's
diagnostics, the bad-time/bad-duration parse errors, the category
errors, the missing-start error, the overlap diagnostic. -/
def taskDiagsOf (st : AnState) (rl : ParsedLineRaw) (tk : RawTaskParts) :
    List Diag :=
  rl.diagnostics
    ++ (match parsedTimeOf tk with | some none => [⟨badTimeCode⟩] | _ => [])
    ++ (match parsedDurationOf tk with
        | some none => [⟨badDurationCode⟩] | _ => [])
    ++ (parseCategories tk.categories).2
    ++ (startResolution st tk).2.2
    ++ overlapDiagsOf st tk

/-- The `TaskNode` built for a task line. -/
def taskNodeOf (st : AnState) (tk : RawTaskParts) : TaskNode :=
  ⟨joinTitle tk.titleParts, startOf st tk, durationMinOf st tk,
    endOf st tk, (parseCategories tk.categories).1,
    (startResolution st tk).2.1, explicitDurationOf tk⟩

/-- `DayPlanAnalyzer.analyzeTask`: one task line, producing the parsed
line and the updated state (cursor advance and scheduled-set push happen
exactly when no error-class diagnostic is present and the end instant is
defined). -/
def analyzeTaskStep (st : AnState) (rl : ParsedLineRaw)
    (tk : RawTaskParts) (id : String) : ParsedLine × AnState :=
  let diags := taskDiagsOf st rl tk
  let node := taskNodeOf st tk
  let hasErrors := diags.any isErrorDiag
  let st' :=
    if !hasErrors && (endOf st tk).isSome then
      { st with cursorTime := endOf st tk, tasks := st.tasks ++ [node] }
    else st
  let status : LineStatus :=
    if hasErrors then .invalid
    else if diags ≠ [] then .validWithWarnings
    else .valid
  (⟨id, rl.raw, rl.lineNo, status, diags, some (.task node)⟩, st')

/-- `DayPlanAnalyzer.analyzeDirective`: re-apply the directive; a thrown
error becomes an `E040-unknown-directive` diagnostic on the line. -/
def analyzeDirectiveStep (st : AnState) (rl : ParsedLineRaw)
    (d : RawDirectiveParts) (id : String) : ParsedLine × AnState :=
  let (diags, ctx') : List Diag × AnalysisContext :=
    match applyDirectiveCtx st.ctx d with
    | some c => (rl.diagnostics, c)
    | none => (rl.diagnostics ++ [⟨unknownDirectiveCode⟩], st.ctx)
  let status : LineStatus :=
    if diags.any isErrorDiag then .invalid
    else if diags ≠ [] then .validWithWarnings
    else .valid
  (⟨id, rl.raw, rl.lineNo, status, diags, some (.directive ⟨d.name, d.args⟩)⟩,
    { st with ctx := ctx' })

/-- `DayPlanAnalyzer.analyzeLine`: dispatch on the raw record. -/
def analyzeLineStep (st : AnState) (idx : Nat) (rl : ParsedLineRaw) :
    ParsedLine × AnState :=
  let id := generateLineId rl.raw idx
  if rl.isBlank || rl.isComment then
    (⟨id, rl.raw, rl.lineNo, .valid, rl.diagnostics, none⟩, st)
  else
    match rl.directive with
    | some d => analyzeDirectiveStep st rl d id
    | none =>
      match rl.task with
      | some tk => analyzeTaskStep st rl tk id
      | none =>
        -- scratchpad lines and unrecognized lines alike: valid, no node
        (⟨id, rl.raw, rl.lineNo, .valid, rl.diagnostics, none⟩, st)

/-- Pass 2 over the raw records; each element is paired with the state
in force BEFORE that line. -/
def pass2Go (st : AnState) (idx : Nat) :
    List ParsedLineRaw → List (AnState × ParsedLine)
  | [] => []
  | rl :: rest =>
    let (pl, st') := analyzeLineStep st idx rl
    (st, pl) :: pass2Go st' (idx + 1) rest

/-- The state after pass 2 consumes a list of raw records. -/
def pass2State (st : AnState) (idx : Nat) :
    List ParsedLineRaw → AnState
  | [] => st
  | rl :: rest => pass2State (analyzeLineStep st idx rl).2 (idx + 1) rest

/-! ## The analyzer entry point -/

/-- The seed context built by the constructor from the caller options
(`today` defaults to the current date and `timezone` to the system zone
in the source; the model takes them as parameters). -/
def initialContext (today : String) (timezone : Option String) :
    AnalysisContext :=
  ⟨today, timezone, 30, .warning⟩

/-- The pass-2 trace (state before each line, paired with the line) of
`DayPlanAnalyzer.analyze` on a document given as its list of lines. -/
def analyzeTrace (doc : List String) (today : String)
    (timezone : Option String) : List (AnState × ParsedLine) :=
  let raws := rawLinesOf doc
  let ctx1 := pass1 (initialContext today timezone) raws
  pass2Go ⟨ctx1, none, []⟩ 0 raws

/-- `DayPlanAnalyzer.analyze` (the returned context is the context after
both passes, as the source copies `this.context` last). -/
def analyze (doc : List String) (today : String)
    (timezone : Option String) : Program :=
  let raws := rawLinesOf doc
  let ctx1 := pass1 (initialContext today timezone) raws
  ⟨(pass2State ⟨ctx1, none, []⟩ 0 raws).ctx,
    (pass2Go ⟨ctx1, none, []⟩ 0 raws).map (·.2)⟩

/-- Split a character list at every `'\n'`. -/
def splitOnNL (l : List Char) : List (List Char) :=
  l.foldr
    (fun c acc =>
      match acc with
      | [] => [[c]]
      | a :: rest => if c = '\n' then [] :: a :: rest else (c :: a) :: rest)
    [[]]

/-- Drop one trailing `'\r'`. -/
def dropTrailingCR (l : List Char) : List Char :=
  match l.reverse with
  | '\r' :: r => r.reverse
  | _ => l

/-- Split a source text on `/\r?\n/`: every `'\n'` separates, consuming
one `'\r'` directly before it; only the final piece can keep a trailing
`'\r'`. -/
def splitLines (source : String) : List String :=
  let ps := splitOnNL source.data
  match ps.reverse with
  | [] => []
  | last :: initRev =>
    (initRev.reverse.map dropTrailingCR ++ [last]).map fun l =>
      (⟨l⟩ : String)

/-- `parseAndAnalyze` on a raw source text. -/
def parseAndAnalyze (source : String) (today : String)
    (timezone : Option String) : Program :=
  analyze (splitLines source) today timezone

/-! ## Time utilities (`src/lsp/time-utils.ts`) -/

/-- `TimeOffset` (`sign: 1 | -1`). -/
structure TimeOffset where
  hours : Nat
  minutes : Nat
  sign : Int
deriving DecidableEq, Repr

/-- The signed total of an offset, in minutes. -/
def TimeOffset.signedTotal (o : TimeOffset) : Int :=
  o.sign * ((o.hours : Int) * 60 + (o.minutes : Int))

/-- `parseTimeOffset`: `/^([+-])(?:(\d+)h)?(?:(\d+)m)?$/` with the
zero-total rejection.  The two optional groups parse deterministically:
a leading digit run belongs to the hour group exactly when `h` follows
it (leaving digits behind can never make the following literal match). -/
def parseTimeOffset (offset : String) : Option TimeOffset :=
  match offset.data with
  | s :: rest =>
    if s = '+' || s = '-' then
      let ds := rest.takeWhile Char.isDigit
      let r := rest.dropWhile Char.isDigit
      let (hours, afterH) : Nat × List Char :=
        if ds ≠ [] ∧ r.head? = some 'h' then (digitsToNat ds, r.tail)
        else (0, rest)
      let ds2 := afterH.takeWhile Char.isDigit
      let r2 := afterH.dropWhile Char.isDigit
      let (minutes, rest2) : Nat × List Char :=
        if ds2 ≠ [] ∧ r2.head? = some 'm' then (digitsToNat ds2, r2.tail)
        else (0, afterH)
      if rest2 = [] then
        -- both groups are optional; a bare sign parses to 0h0m and is
        -- rejected by the explicit zero check below
        if hours = 0 ∧ minutes = 0 then none
        else some ⟨hours, minutes, if s = '+' then 1 else -1⟩
      else none
    else none
  | [] => none

/-- The time formats of `time-utils.parseTimeString`. -/
inductive TimeFormat where
  | clock12
  | clock24
  | word
deriving DecidableEq, Repr

/-- `ParsedTime` of `time-utils.ts`. -/
structure ParsedTime where
  success : Bool
  hours : Option Nat
  minutes : Option Nat
  format : Option TimeFormat
deriving DecidableEq, Repr

/-- `time-utils.parseTimeString`: `noon`/`midnight`, then the 12-hour
form `/^(\d{1,2})(?::(\d{2}))?(am|pm)$/` on the lowercased text (NO
range validation in this branch), then the 24-hour form
`/^(\d{1,2}):(\d{2})$/` with 0–23/0–59 validation. -/
def parseTimeString (timeStr : String) : ParsedTime :=
  let low := (trimL timeStr.data).map Char.toLower
  if low = "noon".data then ⟨true, some 12, some 0, some .word⟩
  else if low = "midnight".data then ⟨true, some 0, some 0, some .word⟩
  else
    let ds := low.takeWhile Char.isDigit
    let r := low.dropWhile Char.isDigit
    let ampmParse : Option (Nat × Nat) :=
      if ds.length = 0 || ds.length > 2 then none
      else
        let h := digitsToNat ds
        let core : Option (Nat × List Char) :=
          match r with
          | ':' :: a :: b :: r2 =>
            if a.isDigit && b.isDigit then some (digitsToNat [a, b], r2)
            else none
          | _ => some (0, r)
        match core with
        | none => none
        | some (m, r2) =>
          match r2 with
          | ['a', 'm'] => some ((if h = 12 then 0 else h), m)
          | ['p', 'm'] => some ((if h ≠ 12 then h + 12 else h), m)
          | _ => none
    match ampmParse with
    | some (h, m) => ⟨true, some h, some m, some .clock12⟩
    | none =>
      let l := timeStr.data
      let ds' := l.takeWhile Char.isDigit
      let r' := l.dropWhile Char.isDigit
      let clockParse : Option (Nat × Nat) :=
        if ds'.length = 0 || ds'.length > 2 then none
        else
          match r' with
          | [':', a, b] =>
            if a.isDigit && b.isDigit then
              some (digitsToNat ds', digitsToNat [a, b])
            else none
          | _ => none
      match clockParse with
      | some (h, m) =>
        if h ≤ 23 ∧ m ≤ 59 then ⟨true, some h, some m, some .clock24⟩
        else ⟨false, none, none, none⟩
      | none => ⟨false, none, none, none⟩

/-- Render two-digit-padded `n` (`toString().padStart(2, '0')`). -/
def pad2 (n : Nat) : String :=
  if n < 10 then "0" ++ toString n else toString n

/-- `time-utils.formatTimeString`: `noon`/`midnight` exactly for the
word format at 12:00/00:00; `HH:MM` for `clock24`; 12-hour rendering
otherwise (a `word` input off the two special values falls back to the
12-hour style). -/
def formatTimeString (hours minutes : Nat) (format : TimeFormat) : String :=
  if format = .word ∧ hours = 12 ∧ minutes = 0 then "noon"
  else if format = .word ∧ hours = 0 ∧ minutes = 0 then "midnight"
  else if format = .clock24 then
    pad2 hours ++ ":" ++ pad2 minutes
  else
    let displayHours :=
      if hours = 0 then 12 else if hours > 12 then hours - 12 else hours
    let ampm := if hours ≥ 12 then "pm" else "am"
    if minutes = 0 then toString displayHours ++ ampm
    else toString displayHours ++ ":" ++ pad2 minutes ++ ampm

/-- `TimeShiftResult` of `time-utils.ts`. -/
structure TimeShiftResult where
  success : Bool
  newTime : Option String
  error : Option String
deriving DecidableEq, Repr

/-- `time-utils.applyTimeOffsetToTimeString`.  The `while` loops move
whole hours out of the minute count until it lands in `[0, 60)` — the
Euclidean remainder and quotient — and the double `% 24` then brings the
hour count into `[0, 24)` (again the Euclidean remainder, written
`((h % 24) + 24) % 24` over JS's truncated `%`). -/
def applyTimeOffsetToTimeString (timeStr : String) (offset : TimeOffset) :
    TimeShiftResult :=
  let parsed := parseTimeString timeStr
  match parsed.hours, parsed.minutes, parsed.format, parsed.success with
  | some h, some m, some fmt, true =>
    let totalMinutes := offset.signedTotal
    let shifted : Int := (m : Int) + totalMinutes
    let newMinutes := shifted.emod 60
    let newHours := ((h : Int) + shifted.ediv 60).emod 24
    ⟨true,
      some (formatTimeString newHours.toNat newMinutes.toNat fmt), none⟩
  | _, _, _, _ =>
    ⟨false, none, some ("Invalid time format: " ++ timeStr)⟩

/-- `validateTimeOffset` (field `valid`, optional `error`). -/
structure OffsetValidation where
  valid : Bool
  error : Option String
deriving DecidableEq, Repr

/-- The plain format-error message of `validateTimeOffset`. -/
def offsetFormatErrorMsg : String :=
  "Invalid offset format. Use +/-[Nh][Nm] (e.g., +10m, -1h30m, +2h)"

/-- The magnitude error message of `validateTimeOffset`. -/
def offsetTooLargeMsg : String := "Offset too large (max 12 hours)"

/-- `time-utils.validateTimeOffset`. -/
def validateTimeOffset (offset : String) : OffsetValidation :=
  if trimS offset = "" then ⟨false, some "Offset cannot be empty"⟩
  else
    match parseTimeOffset offset with
    | none => ⟨false, some offsetFormatErrorMsg⟩
    | some parsed =>
      if parsed.hours * 60 + parsed.minutes > 12 * 60 then
        ⟨false, some offsetTooLargeMsg⟩
      else ⟨true, none⟩

/-! ## The lexer (`src/lexer/tokens.ts`, `src/lexer/lexer.ts`) -/

/-- Token kinds of the lexer (`allTokens`; `WhiteSpace` is skipped and
carries no kind). -/
inductive TokKind where
  | eol
  | hashComment
  | slashComment
  | dash
  | bang
  | comma
  | equals
  | catDouble
  | catColon
  | timeWord
  | duration
  | timeClock
  | scratchpadDir
  | plannerDir
  | ident
  | text
deriving DecidableEq, Repr

/-- A token: kind, image, start offset (`endOffset + 1` is
`start + image.length`). -/
structure Tok where
  kind : TokKind
  image : List Char
  start : Nat
deriving DecidableEq, Repr

/-- Length of a `Duration` token match at the head of `l`:
`/\d+h(?:\d{1,2}m)?|\d+m/` (declared before `TimeClock` in
`allTokens`).  The `(?:\d{1,2}m)?` group matches only when the digit
run after `h` has length 1 or 2 and `m` follows it directly; a longer
run leaves the group unmatched. -/
def durationTokLen (l : List Char) : Option Nat :=
  let ds := l.takeWhile Char.isDigit
  let r := l.dropWhile Char.isDigit
  if ds = [] then none
  else
    match r with
    | 'h' :: r2 =>
      let ds2 := r2.takeWhile Char.isDigit
      let r3 := r2.dropWhile Char.isDigit
      if ds2 ≠ [] ∧ ds2.length ≤ 2 ∧ r3.head? = some 'm' then
        some (ds.length + 1 + ds2.length + 1)
      else some (ds.length + 1)
    | 'm' :: _ => some (ds.length + 1)
    | _ => none

/-- Length of a `TimeClock` token match at the head of `l`:
`/(?:\d{1,2}(?::\d{2})?(?:am|pm)?|\d{2}:\d{2})/i`.  The first
alternative succeeds at any digit (both groups are optional), so the
match is one or two digits, an optional `:DD`, and an optional
case-insensitive `am`/`pm`; the second alternative is never reached. -/
def timeClockTokLen (l : List Char) : Option Nat :=
  let ds := l.takeWhile Char.isDigit
  if ds = [] then none
  else
    let dn := min ds.length 2
    let r := l.drop dn
    let (cn, r2) : Nat × List Char :=
      match r with
      | ':' :: a :: b :: rest =>
        if a.isDigit && b.isDigit then (3, rest) else (0, r)
      | _ => (0, r)
    let an : Nat :=
      match r2 with
      | x :: y :: _ =>
        if (x.toLower = 'a' || x.toLower = 'p') && y.toLower = 'm' then 2
        else 0
      | _ => 0
    some (dn + cn + an)

/-- Length of a `TimeWord` match at the head of `l`:
`/(?:noon|midnight)/i`. -/
def timeWordTokLen (l : List Char) : Option Nat :=
  if (l.take 4).map Char.toLower = "noon".data then some 4
  else if (l.take 8).map Char.toLower = "midnight".data then some 8
  else none

/-- Length of the `Identifier` run `[A-Za-z0-9_-]+` at the head (0 when
the first character is outside the class). -/
def identRunLen (l : List Char) : Nat :=
  (l.takeWhile isCatChar).length

/-- A `Text` character: `[^\s,:#\r\n]`. -/
def isTextChar (c : Char) : Bool :=
  !(c.isWhitespace || c = ',' || c = ':' || c = '#' || c = '\r' ||
    c = '\n')

/-- A character that is not a line terminator (the `[^\r\n]*` tails of
the comment patterns). -/
def isNotCRLF (c : Char) : Bool := !(c = '\r' || c = '\n')

/-- The next token at the head of a non-empty `l` — kind and length —
per the `allTokens` order (chevrotain takes the first pattern that
matches at the position): `WhiteSpace` `[ \t]+` (skipped: `none` kind
with its run length), `EOL`, the comments, the punctuation (`::` before
`:`), `TimeWord`, `Duration`, `TimeClock`, the two section-directive
keywords (whose `longer_alt` falls back to `Identifier` when the
identifier run extends past the keyword), `Identifier`, `Text`.  A
character matching no pattern is a lexing error: chevrotain drops it
and resumes (`none` kind, length 1). -/
def nextTok (l : List Char) : Option TokKind × Nat :=
  match l with
  | [] => (none, 1)
  | c :: rest =>
    if c = ' ' || c = '\t' then
      (none, 1 + (rest.takeWhile fun c' => c' = ' ' || c' = '\t').length)
    else if c = '\r' ∧ rest.head? = some '\n' then (some .eol, 2)
    else if c = '\n' then (some .eol, 1)
    else if c = '#' then
      (some .hashComment, 1 + (rest.takeWhile isNotCRLF).length)
    else if c = '/' ∧ rest.head? = some '/' then
      (some .slashComment, 2 + ((rest.tail).takeWhile isNotCRLF).length)
    else if c = '-' then (some .dash, 1)
    else if c = '!' then (some .bang, 1)
    else if c = ',' then (some .comma, 1)
    else if c = '=' then (some .equals, 1)
    else if c = ':' ∧ rest.head? = some ':' then (some .catDouble, 2)
    else if c = ':' then (some .catColon, 1)
    else
      match timeWordTokLen l with
      | some n => (some .timeWord, n)
      | none =>
        match durationTokLen l with
        | some n => (some .duration, n)
        | none =>
          match timeClockTokLen l with
          | some n => (some .timeClock, n)
          | none =>
            if l.take 10 = "scratchpad".data ∧ identRunLen l = 10 then
              (some .scratchpadDir, 10)
            else if l.take 7 = "planner".data ∧ identRunLen l = 7 then
              (some .plannerDir, 7)
            else if identRunLen l ≠ 0 then (some .ident, identRunLen l)
            else if (l.takeWhile isTextChar).length ≠ 0 then
              (some .text, (l.takeWhile isTextChar).length)
            else (none, 1)

/-- The token stream of one chevrotain `lexer.tokenize` call (skipped
whitespace and error characters dropped, offsets preserved; fuel: one
unit per token, each of which consumes at least one character). -/
def tokenizeGo : Nat → List Char → Nat → List Tok
  | 0, _, _ => []
  | _, [], _ => []
  | fuel + 1, c :: rest, pos =>
    let (k, n) := nextTok (c :: rest)
    let n := max n 1
    match k with
    | none => tokenizeGo fuel ((c :: rest).drop n) (pos + n)
    | some kind =>
      ⟨kind, (c :: rest).take n, pos⟩ ::
        tokenizeGo fuel ((c :: rest).drop n) (pos + n)

/-- One chevrotain `lexer.tokenize` call on a text. -/
def lexLine (l : List Char) : List Tok :=
  tokenizeGo l.length l 0

/-- `tokenize` of `src/lexer/lexer.ts`: split on `/\r?\n/`, preprocess
each line, lex the PROCESSED line (so token offsets are relative to the
space-corrected text), and concatenate the per-line token arrays. -/
def tokenize (text : String) : List Tok :=
  ((splitLines text).map fun line =>
    lexLine (preprocessLine line).2.data).join

/-! ## Parser utilities (`src/lsp/parser-utils.ts`) -/

/-- A located time token. -/
structure TimeTokenLoc where
  timeStr : String
  start : Nat
  «end» : Nat
deriving DecidableEq, Repr

/-- `parser-utils.findTimeTokenInLine`: the first `TimeClock` or
`TimeWord` token of the line (`end` is `endOffset + 1`). -/
def findTimeTokenInLine (line : String) : Option TimeTokenLoc :=
  ((tokenize line).find? fun t =>
      t.kind = .timeClock || t.kind = .timeWord).map
    fun t => ⟨⟨t.image⟩, t.start, t.start + t.image.length⟩

/-- `parser-utils.validateTaskLineFormat`: tokenizes the line; `valid`
means a `Dash` token is present. -/
def validateTaskLineFormat (line : String) : Bool :=
  (tokenize line).any fun t => t.kind = .dash

/-! ## Time-shift commands (`src/lsp/commands/time-shift.ts`) -/

/-- `TimeShiftResult` of `commands/time-shift.ts`. -/
structure LineShiftResult where
  success : Bool
  newLineContent : Option String
  error : Option String
  affectedLines : Option (List String)
deriving DecidableEq, Repr

/-- A failing shift result. -/
def shiftFail (msg : String) : LineShiftResult := ⟨false, none, some msg, none⟩

/-- `formatTimeForInsertion`: `noon`/`midnight` exactly at 12:00/00:00,
otherwise the 12-hour rendering; reads the instant's wall-clock value
(`getHours()`/`getMinutes()`). -/
def formatTimeForInsertion (instant : Int) : String :=
  let hours := (instant.emod 1440).toNat / 60
  let minutes := (instant.emod 60).toNat
  if hours = 12 ∧ minutes = 0 then "noon"
  else if hours = 0 ∧ minutes = 0 then "midnight"
  else
    let displayHours :=
      if hours = 0 then 12 else if hours > 12 then hours - 12 else hours
    let ampm := if hours ≥ 12 then "pm" else "am"
    if minutes = 0 then toString displayHours ++ ampm
    else toString displayHours ++ ":" ++ pad2 minutes ++ ampm

/-- The `/^(\s*-\s*)(.*)/` split (greedy whitespace runs): the marker
group and the rest of the line. -/
def dashSplit (l : List Char) : Option (List Char × List Char) :=
  let ws1 := l.takeWhile isWs
  match l.dropWhile isWs with
  | '-' :: r => some (ws1 ++ '-' :: r.takeWhile isWs, r.dropWhile isWs)
  | _ => none

/-- `shiftTaskTime`: splice a shifted time over the located token when
the start was explicit; insert a rendered time right after the marker
(followed by `", "`) when the start was inherited. -/
def shiftTaskTime (rawLine : String) (task : TaskNode) (offset : String) :
    LineShiftResult :=
  match parseTimeOffset offset with
  | none => shiftFail "Invalid offset format"
  | some parsedOffset =>
    if task.explicitStart ∧ task.start.isSome then
      match findTimeTokenInLine rawLine with
      | none => shiftFail "Could not locate time in line to modify"
      | some timeToken =>
        let shiftResult :=
          applyTimeOffsetToTimeString timeToken.timeStr parsedOffset
        match shiftResult.newTime, shiftResult.success with
        | some newTime, true =>
          ⟨true,
            some ⟨rawLine.data.take timeToken.start ++ newTime.data ++
              rawLine.data.drop timeToken.end⟩, none, none⟩
        | _, _ => ⟨false, none, shiftResult.error, none⟩
    else if !task.explicitStart ∧ task.start.isSome then
      match task.start with
      | none => shiftFail "Task has no time information to shift"
      | some s =>
        let newTimeStr := formatTimeForInsertion (s + parsedOffset.signedTotal)
        match dashSplit rawLine.data with
        | none => shiftFail "Invalid task line format"
        | some (pre, content) =>
          ⟨true, some ⟨pre ++ newTimeStr.data ++ ", ".data ++ content⟩,
            none, none⟩
    else shiftFail "Task has no time information to shift"

/-- `findAffectedLines`: scan forward from the shifted line, collecting
task lines without an explicit start, stopping at the first task line
that has one. -/
def collectAffected : List ParsedLine → List ParsedLine
  | [] => []
  | l :: r =>
    match l.node with
    | some (.task t) =>
      if t.explicitStart then [] else l :: collectAffected r
    | _ => collectAffected r

/-- `findAffectedLines` proper. -/
def findAffectedLines (shifted : ParsedLine) (allLines : List ParsedLine) :
    List ParsedLine :=
  match allLines.findIdx? fun l => l.id = shifted.id with
  | none => []
  | some i => collectAffected (allLines.drop (i + 1))

/-- `executeTimeShift`: validation, task-only gate, line-format check,
then `shiftTaskTime` plus the affected-line scan. -/
def executeTimeShift (line : ParsedLine) (offset : String)
    (allLines : List ParsedLine := []) : LineShiftResult :=
  let validation := validateTimeOffset offset
  if !validation.valid then ⟨false, none, validation.error, none⟩
  else
    match line.node with
    | some (.task task) =>
      if !validateTaskLineFormat line.raw then
        shiftFail "Invalid task line format - missing dash or malformed syntax"
      else
        let r := shiftTaskTime line.raw task offset
        if !r.success then r
        else
          ⟨true, r.newLineContent, none,
            some ((findAffectedLines line allLines).map (·.id))⟩
    | _ => shiftFail "Time shift can only be applied to task lines"

/-- The batch result of `executeBatchTimeShift` (the `Map` keyed by line
id, in insertion order). -/
structure BatchShiftResult where
  success : Bool
  results : List (String × LineShiftResult)
  error : Option String
deriving DecidableEq, Repr

/-- `Map.prototype.set`: update in place or append. -/
def mapSet (k : String) (v : LineShiftResult) :
    List (String × LineShiftResult) → List (String × LineShiftResult)
  | [] => [(k, v)]
  | (k', v') :: r => if k' = k then (k, v) :: r else (k', v') :: mapSet k v r

/-- `executeBatchTimeShift`: each line shifted independently against the
same snapshot; results keyed by line id; `success` iff every line
succeeded. -/
def executeBatchTimeShift (lines : List ParsedLine) (offset : String) :
    BatchShiftResult :=
  let validation := validateTimeOffset offset
  if !validation.valid then ⟨false, [], validation.error⟩
  else
    let results := lines.foldl
      (fun acc line => mapSet line.id (executeTimeShift line offset lines) acc)
      []
    let hasErrors := results.any fun kv => !kv.2.success
    ⟨!hasErrors, results,
      if hasErrors then some "Some lines failed to shift" else none⟩

/-! ## The language service (`src/lsp/index.ts`) -/

/-- `BatchTimeShiftResult` of the service. -/
structure ServiceBatchResult where
  success : Bool
  newContent : Option String
  error : Option String
  results : List (Nat × Bool × Option String)
deriving DecidableEq, Repr

/-- `Map.prototype.set` on line numbers. -/
def mapSetNat (k : Nat) (v : Bool × Option String) :
    List (Nat × Bool × Option String) → List (Nat × Bool × Option String)
  | [] => [(k, v)]
  | (k', v') :: r => if k' = k then (k, v) :: r else (k', v') :: mapSetNat k v r

/-- Replace element `i` of a list (`contentLines[lineNo - 1] = …`). -/
def setAt (l : List String) (i : Nat) (v : String) : List String :=
  l.take i ++ [v] ++ l.drop (i + 1)

/-- `TempoestLanguageServiceImpl.shiftMultipleLines`.  The service
analyzes the content with default options (seeded from the clock and
system zone in the source; taken as parameters here), shifts the
selected lines as one batch, and merges by line number — but ONLY when
the whole batch succeeded: any failure returns an error with an empty
result map and no content. -/
def shiftMultipleLines (content : String) (lineNumbers : List Nat)
    (offset : String) (today : String) (timezone : Option String) :
    ServiceBatchResult :=
  let validation := validateTimeOffset offset
  if !validation.valid then ⟨false, none, validation.error, []⟩
  else
    let program := parseAndAnalyze content today timezone
    let lines := lineNumbers.filterMap fun n => program.lines.get? (n - 1)
    let batchResult := executeBatchTimeShift lines offset
    if !batchResult.success then ⟨false, none, batchResult.error, []⟩
    else
      let contentLines := splitLines content
      let merged := batchResult.results.foldl
        (fun (acc : List String × List (Nat × Bool × Option String)) kv =>
          match program.lines.find? fun l => l.id = kv.1 with
          | some line =>
            match kv.2.newLineContent, kv.2.success with
            | some newLine, true =>
              (setAt acc.1 (line.lineNo - 1) newLine,
                mapSetNat line.lineNo (true, none) acc.2)
            | _, _ => (acc.1, mapSetNat line.lineNo (false, kv.2.error) acc.2)
          | none => acc)
        (contentLines, [])
      ⟨true, some (String.intercalate "\n" merged.1), none, merged.2⟩

/-! ## The spec's offset grammar (the comparison side for the offset
validation claim) -/

/-- Modelled from the spec: an hour component is absent, or a nonempty
digit run suffixed with the hour unit `h`, denoting that many hours. -/
def specHourPart (l : List Char) (n : Nat) : Prop :=
  (l = [] ∧ n = 0) ∨
    ∃ ds, ds ≠ [] ∧ (∀ c ∈ ds, c.isDigit = true) ∧ l = ds ++ ['h'] ∧
      n = digitsToNat ds

/-- Modelled from the spec: a minute component is absent, or a nonempty
digit run suffixed with the minute unit `m`, denoting that many
minutes. -/
def specMinutePart (l : List Char) (n : Nat) : Prop :=
  (l = [] ∧ n = 0) ∨
    ∃ ds, ds ≠ [] ∧ (∀ c ∈ ds, c.isDigit = true) ∧ l = ds ++ ['m'] ∧
      n = digitsToNat ds

/-- Modelled from the spec: the offset grammar — a sign, then an
optional hour component and/or an optional minute component, at least
one of the two present. -/
def specOffsetGrammar (s : String) (o : TimeOffset) : Prop :=
  ∃ sig hstr mstr, s.data = sig :: (hstr ++ mstr) ∧
    (sig = '+' ∨ sig = '-') ∧
    specHourPart hstr o.hours ∧ specMinutePart mstr o.minutes ∧
    ¬(hstr = [] ∧ mstr = []) ∧
    o.sign = (if sig = '+' then 1 else -1)

/-!
# Infrastructure lemmas

Indexed access into the two passes, and the invariants the claims rest
on.
-/

section Lemmas

theorem phase0Go_length (doc : List String) (sect : SectionMode) (idx : Nat) :
    (phase0Go sect idx doc).length = doc.length := by
  induction doc generalizing sect idx with
  | nil => rfl
  | cons line rest ih => simp [phase0Go, ih]

theorem rawLinesOf_length (doc : List String) :
    (rawLinesOf doc).length = doc.length := by
  simp [rawLinesOf, phase0Go_length]

/-- The section mode after phase 0 consumes a list of lines. -/
def phase0SectState (sect : SectionMode) (idx : Nat) :
    List String → SectionMode
  | [] => sect
  | line :: rest =>
    phase0SectState (phase0Step sect idx line).2 (idx + 1) rest

theorem phase0Go_get? (doc : List String) (sect : SectionMode)
    (idx i : Nat) :
    (phase0Go sect idx doc).get? i = (doc.get? i).map fun line =>
      ((phase0Step (phase0SectState sect idx (doc.take i)) (idx + i) line).1,
        phase0SectState sect idx (doc.take i)) := by
  induction doc generalizing sect idx i with
  | nil => simp [phase0Go]
  | cons line rest ih =>
    cases i with
    | zero => simp [phase0Go, phase0SectState]
    | succ j =>
      simp only [phase0Go, List.get?_cons_succ, List.take_succ_cons]
      rw [ih]
      have : idx + (j + 1) = idx + 1 + j := by omega
      simp [this, phase0SectState]

theorem pass2Go_length (raws : List ParsedLineRaw) (st : AnState)
    (idx : Nat) : (pass2Go st idx raws).length = raws.length := by
  induction raws generalizing st idx with
  | nil => rfl
  | cons rl rest ih => simp [pass2Go, ih]

theorem pass2Go_get? (raws : List ParsedLineRaw) (st : AnState)
    (idx i : Nat) :
    (pass2Go st idx raws).get? i = (raws.get? i).map fun rl =>
      (pass2State st idx (raws.take i),
        (analyzeLineStep (pass2State st idx (raws.take i)) (idx + i) rl).1)
    := by
  induction raws generalizing st idx i with
  | nil => simp [pass2Go]
  | cons rl rest ih =>
    cases i with
    | zero => simp [pass2Go, pass2State]
    | succ j =>
      simp only [pass2Go, List.get?_cons_succ, List.take_succ_cons]
      rw [ih]
      have : idx + (j + 1) = idx + 1 + j := by omega
      simp [this, pass2State]

theorem pass2State_append (xs ys : List ParsedLineRaw) (st : AnState)
    (idx : Nat) :
    pass2State st idx (xs ++ ys) =
      pass2State (pass2State st idx xs) (idx + xs.length) ys := by
  induction xs generalizing st idx with
  | nil => simp [pass2State]
  | cons rl rest ih =>
    simp only [List.cons_append, pass2State, List.length_cons, List.append_eq]
    rw [ih]
    congr 1
    omega

theorem pass2Go_append (xs ys : List ParsedLineRaw) (st : AnState)
    (idx : Nat) :
    pass2Go st idx (xs ++ ys) =
      pass2Go st idx xs ++
        pass2Go (pass2State st idx xs) (idx + xs.length) ys := by
  induction xs generalizing st idx with
  | nil => simp [pass2Go, pass2State]
  | cons rl rest ih =>
    simp only [List.cons_append, pass2Go, pass2State, List.length_cons,
      List.cons_append, List.append_eq]
    rw [ih]
    have he : idx + 1 + rest.length = idx + (rest.length + 1) := by omega
    rw [he]

theorem phase0Go_append (xs ys : List String) (sect : SectionMode)
    (idx : Nat) :
    phase0Go sect idx (xs ++ ys) =
      phase0Go sect idx xs ++
        phase0Go (phase0SectState sect idx xs) (idx + xs.length) ys := by
  induction xs generalizing sect idx with
  | nil => simp [phase0Go, phase0SectState]
  | cons line rest ih =>
    simp only [List.cons_append, phase0Go, phase0SectState,
      List.length_cons, List.cons_append, List.append_eq]
    rw [ih]
    have he : idx + 1 + rest.length = idx + (rest.length + 1) := by omega
    rw [he]

/-- The three possible shapes of a `parseLineContent` result: nothing,
a directive, or (outside scratchpad) a task. -/
theorem parseLineContent_shape (line : String) (sect : SectionMode) :
    parseLineContent line sect = ⟨none, none, []⟩ ∨
      (∃ d, parseLineContent line sect = ⟨none, some d, []⟩) ∨
      (sect ≠ .scratchpad ∧
        ∃ tk diags, parseLineContent line sect = ⟨some tk, none, diags⟩) := by
  rcases h1 : lineContentOpt line with _ | content
  · left; simp [parseLineContent, h1]
  · rcases h2 : (if content.head? = some '!'
        then parseDirectiveContent content else none) with _ | d
    · by_cases hs : sect = SectionMode.scratchpad
      · left; simp [parseLineContent, h1, h2, hs]
      · right; right
        refine ⟨hs, ?_⟩
        simp only [parseLineContent, h1, h2]
        rw [if_neg hs]
        exact ⟨_, _, rfl⟩
    · right; left
      exact ⟨d, by simp [parseLineContent, h1, h2]⟩

/-- In scratchpad mode a non-directive line parses to nothing at all. -/
theorem parseLineContent_scratchpad (line : String)
    (h : (parseLineContent line .scratchpad).directive = none) :
    parseLineContent line .scratchpad = ⟨none, none, []⟩ := by
  rcases parseLineContent_shape line .scratchpad with h1 | ⟨d, h1⟩ | ⟨hs, _⟩
  · exact h1
  · rw [h1] at h; cases h
  · exact absurd rfl hs

/-- A task result forces an empty directive field. -/
theorem parseLineContent_task_directive (line : String)
    (sect : SectionMode) (tk : RawTaskParts)
    (h : (parseLineContent line sect).task = some tk) :
    (parseLineContent line sect).directive = none := by
  rcases parseLineContent_shape line sect with h1 | ⟨d, h1⟩ | ⟨_, tk', dg, h1⟩
  · rw [h1] at h; cases h
  · rw [h1] at h; cases h
  · rw [h1]

/-- The cursor always points at the end of the most recently scheduled
task, and exists exactly when some task has been scheduled. -/
def cursorInv (st : AnState) : Prop :=
  (st.tasks = [] ↔ st.cursorTime = none) ∧
    ∀ c, st.cursorTime = some c →
      ∃ rest t, st.tasks = rest ++ [t] ∧ t.endTime = some c

theorem cursorInv_initial (ctx : AnalysisContext) :
    cursorInv ⟨ctx, none, []⟩ := by
  constructor
  · simp
  · intro c hc; cases hc

theorem analyzeDirectiveStep_state (st : AnState) (rl : ParsedLineRaw)
    (d : RawDirectiveParts) (id : String) :
    (analyzeDirectiveStep st rl d id).2.cursorTime = st.cursorTime ∧
      (analyzeDirectiveStep st rl d id).2.tasks = st.tasks := by
  unfold analyzeDirectiveStep
  rcases applyDirectiveCtx st.ctx d with _ | c <;> simp

/-- The committed state of a task step. -/
theorem analyzeTaskStep_state (st : AnState) (rl : ParsedLineRaw)
    (tk : RawTaskParts) (id : String) :
    (analyzeTaskStep st rl tk id).2 =
      (if !(taskDiagsOf st rl tk).any isErrorDiag ∧ (endOf st tk).isSome then
        { st with cursorTime := endOf st tk,
                  tasks := st.tasks ++ [taskNodeOf st tk] }
      else st) := by
  unfold analyzeTaskStep
  by_cases hc : (!(taskDiagsOf st rl tk).any isErrorDiag &&
      (endOf st tk).isSome) = true
  · rcases (Bool.and_eq_true _ _).mp hc with ⟨h1, h2⟩
    simp [hc, h1, h2]
  · simp only [hc, Bool.false_eq_true, if_false]
    rw [if_neg]
    intro hcon
    exact hc ((Bool.and_eq_true _ _).mpr ⟨hcon.1, hcon.2⟩)

theorem step_preserves_cursorInv (st : AnState) (idx : Nat)
    (rl : ParsedLineRaw) (h : cursorInv st) :
    cursorInv (analyzeLineStep st idx rl).2 := by
  unfold analyzeLineStep
  by_cases hbc : (rl.isBlank || rl.isComment) = true
  · simpa [hbc]
  · simp only [hbc, Bool.false_eq_true, if_false]
    rcases hd : rl.directive with _ | d
    · rcases ht : rl.task with _ | tk
      · simpa
      · simp only []
        rw [analyzeTaskStep_state]
        by_cases hcommit :
          (!(taskDiagsOf st rl tk).any isErrorDiag ∧ (endOf st tk).isSome)
        · rw [if_pos hcommit]
          rcases Option.isSome_iff_exists.mp hcommit.2 with ⟨e, he⟩
          constructor
          · simp [he]
          · intro c hc
            simp only [he] at hc ⊢
            exact ⟨st.tasks, taskNodeOf st tk, rfl, by
              simp only [taskNodeOf, he]
              cases hc
              rfl⟩
        · rwa [if_neg hcommit]
    · simp only []
      have hs := analyzeDirectiveStep_state st rl d (generateLineId rl.raw idx)
      constructor
      · rw [hs.1, hs.2]; exact h.1
      · intro c hc
        rw [hs.1] at hc
        rw [hs.2]
        exact h.2 c hc

theorem pass2State_cursorInv (raws : List ParsedLineRaw) (st : AnState)
    (idx : Nat) (h : cursorInv st) : cursorInv (pass2State st idx raws) := by
  induction raws generalizing st idx with
  | nil => exact h
  | cons rl rest ih =>
    exact ih _ _ (step_preserves_cursorInv st idx rl h)

/-- Lines that carry no task never move the cursor or the scheduled
set. -/
theorem analyzeLineStep_no_task (st : AnState) (idx : Nat)
    (rl : ParsedLineRaw) (h : rl.task = none) :
    (analyzeLineStep st idx rl).2.cursorTime = st.cursorTime ∧
      (analyzeLineStep st idx rl).2.tasks = st.tasks := by
  unfold analyzeLineStep
  by_cases hbc : (rl.isBlank || rl.isComment) = true
  · simp [hbc]
  · simp only [hbc, Bool.false_eq_true, if_false]
    rcases hd : rl.directive with _ | d
    · simp [h]
    · exact analyzeDirectiveStep_state st rl d _

theorem pass2State_no_task_cursor (raws : List ParsedLineRaw)
    (st : AnState) (idx : Nat) (h : ∀ rl ∈ raws, rl.task = none) :
    (pass2State st idx raws).cursorTime = st.cursorTime := by
  induction raws generalizing st idx with
  | nil => rfl
  | cons rl rest ih =>
    have h1 := analyzeLineStep_no_task st idx rl (h rl (by simp))
    rw [pass2State, ih _ _ fun r hr => h r (by simp [hr]), h1.1]

/-- Unpack one element of the analysis trace: the raw record at the
same index, the state as the prefix fold, the line as the step result. -/
theorem analyzeTrace_elim (doc : List String) (today : String)
    (tz : Option String) (i : Nat) (st : AnState) (pl : ParsedLine)
    (h : (analyzeTrace doc today tz).get? i = some (st, pl)) :
    ∃ rl, (rawLinesOf doc).get? i = some rl ∧
      st = pass2State
        ⟨pass1 (initialContext today tz) (rawLinesOf doc), none, []⟩ 0
        ((rawLinesOf doc).take i) ∧
      pl = (analyzeLineStep st i rl).1 := by
  unfold analyzeTrace at h
  rw [pass2Go_get?] at h
  rcases hr : (rawLinesOf doc).get? i with _ | rl
  · rw [hr] at h; cases h
  · rw [hr, Option.map_some'] at h
    injection h with h
    injection h with h1 h2
    subst h1
    refine ⟨rl, rfl, rfl, ?_⟩
    rw [← h2]
    simp

/-- Every state in the trace satisfies the cursor invariant. -/
theorem analyzeTrace_cursorInv (doc : List String) (today : String)
    (tz : Option String) (i : Nat) (st : AnState) (pl : ParsedLine)
    (h : (analyzeTrace doc today tz).get? i = some (st, pl)) :
    cursorInv st := by
  rcases analyzeTrace_elim doc today tz i st pl h with ⟨rl, _, hst, _⟩
  rw [hst]
  exact pass2State_cursorInv _ _ _ (cursorInv_initial _)

/-- The shape of a raw record carrying a task: produced only by the
guarded branch of `phase0Step` with no directive, on a non-blank,
non-comment line. -/
theorem phase0Step_task_shape (sect : SectionMode) (idx : Nat)
    (line : String) (tk : RawTaskParts)
    (h : (phase0Step sect idx line).1.task = some tk) :
    (phase0Step sect idx line).1.isBlank = false ∧
      (phase0Step sect idx line).1.isComment = false ∧
      (phase0Step sect idx line).1.directive = none := by
  by_cases hg : phase0Guard line = true
  · have hb : isBlankLine line = false ∧ isCommentLine line = false := by
      unfold phase0Guard at hg
      rcases (Bool.and_eq_true _ _).mp hg with ⟨hg1, _⟩
      rcases (Bool.and_eq_true _ _).mp hg1 with ⟨h1, h2⟩
      exact ⟨by simpa using h1, by simpa using h2⟩
    simp only [phase0Step, hg, if_pos] at h ⊢
    refine ⟨hb.1, hb.2, ?_⟩
    exact parseLineContent_task_directive line sect tk h
  · simp only [phase0Step, hg] at h
    simp at h

/-- The only preprocessing diagnostic is the missing-space warning. -/
theorem preprocessDiags_codes (line : String) :
    ∀ d ∈ preprocessDiags line, d = ⟨missingSpaceCode⟩ := by
  intro d hd
  unfold preprocessDiags preprocessLine at hd
  split at hd
  · simp only [] at hd
    split at hd
    · simp_all
    · cases hd
  · cases hd

/-- Each classification step only adds unknown-part, bad-category or
bad-duration diagnostics. -/
theorem classifyPart_diag_sub (acc : RawTaskParts × List Diag)
    (part : String) (d : Diag) (hd : d ∈ (classifyPart acc part).2) :
    d ∈ acc.2 ∨ d.code = unknownPartCode ∨ d.code = badCategoryCode ∨
      d.code = badDurationCode := by
  unfold classifyPart at hd
  rcases acc with ⟨task, diags⟩
  simp only [] at hd
  repeat' split at hd
  all_goals
    first
      | exact Or.inl hd
      | (simp only [List.mem_append, List.mem_singleton] at hd
         rcases hd with h | h
         · exact Or.inl h
         · simp [h])

theorem classifyPart_fold_diag_sub (parts : List String)
    (acc : RawTaskParts × List Diag) (d : Diag)
    (hd : d ∈ (parts.foldl classifyPart acc).2) :
    d ∈ acc.2 ∨ d.code = unknownPartCode ∨ d.code = badCategoryCode ∨
      d.code = badDurationCode := by
  induction parts generalizing acc with
  | nil => exact Or.inl hd
  | cons p rest ih =>
    rcases ih (classifyPart acc p) hd with h1 | h1
    · rcases classifyPart_diag_sub acc p d h1 with h2 | h2
      · exact Or.inl h2
      · exact Or.inr h2
    · exact Or.inr h1

/-- The closed set of diagnostic codes `parseLineContent` can emit. -/
theorem parseLineContent_diag_codes (line : String) (sect : SectionMode) :
    ∀ d ∈ (parseLineContent line sect).diagnostics,
      d.code = unknownPartCode ∨ d.code = badCategoryCode ∨
        d.code = badDurationCode ∨ d.code = trailingCommaCode := by
  intro d hd
  rcases h1 : lineContentOpt line with _ | content
  · simp [parseLineContent, h1] at hd
  · rcases h2 : (if content.head? = some '!'
        then parseDirectiveContent content else none) with _ | dd
    · by_cases hs : sect = SectionMode.scratchpad
      · simp [parseLineContent, h1, h2, hs] at hd
      · simp only [parseLineContent, h1, h2, if_neg hs] at hd
        split at hd
        · rcases List.mem_append.mp hd with h3 | h3
          · rcases classifyPart_fold_diag_sub _ _ _ h3 with h4 | h4
            · cases h4
            · tauto
          · simp at h3; simp [h3]
        · rcases classifyPart_fold_diag_sub _ _ _ hd with h4 | h4
          · cases h4
          · tauto
    · simp [parseLineContent, h1, h2] at hd

/-- The closed set of diagnostic codes a raw record can carry out of
phase 0. -/
theorem rawLines_diag_codes (doc : List String) (i : Nat)
    (rl : ParsedLineRaw) (h : (rawLinesOf doc).get? i = some rl) :
    ∀ d ∈ rl.diagnostics,
      d.code = missingSpaceCode ∨ d.code = unknownPartCode ∨
        d.code = badCategoryCode ∨ d.code = badDurationCode ∨
        d.code = trailingCommaCode := by
  intro d hd
  unfold rawLinesOf at h
  rw [List.get?_map, phase0Go_get?] at h
  rcases hl : doc.get? i with _ | line
  · rw [hl] at h; cases h
  · rw [hl] at h
    simp only [Option.map_some', Option.some_inj] at h
    have hrl : rl = (phase0Step (phase0SectState .planner 0 (doc.take i))
        (0 + i) line).1 := by rw [← h]
    rw [hrl] at hd
    unfold phase0Step at hd
    by_cases hg : phase0Guard line = true
    · simp only [hg, if_pos] at hd
      rcases List.mem_append.mp hd with h3 | h3
      · have := preprocessDiags_codes line d h3
        simp [this]
      · have := parseLineContent_diag_codes line _ d h3
        tauto
    · simp only [hg, Bool.false_eq_true, if_false] at hd
      have := preprocessDiags_codes line d hd
      simp [this]

/-- Category-parsing errors are all bad-category errors. -/
theorem parseCategories_diag_codes (cats : List String) :
    ∀ d ∈ (parseCategories cats).2, d.code = badCategoryCode := by
  suffices h : ∀ acc : List CategoryPath × List Diag,
      (∀ d ∈ acc.2, d.code = badCategoryCode) →
      ∀ d ∈ (cats.foldl (fun acc category =>
        match category.data with
        | ':' :: rest =>
          let segs := splitOnDoubleColon rest []
          if segs.any fun s => trimL s = [] then
            (acc.1, acc.2 ++ [⟨badCategoryCode⟩])
          else
            (acc.1 ++ [⟨segs.map fun s => (⟨s⟩ : String)⟩], acc.2)
        | _ => acc) acc).2, d.code = badCategoryCode by
    intro d hd
    exact h ([], []) (by simp) d hd
  induction cats with
  | nil => intro acc hacc d hd; exact hacc d hd
  | cons c rest ih =>
    intro acc hacc d hd
    refine ih _ ?_ d hd
    intro d' hd'
    simp only [] at hd'
    rcases hc : c.data with _ | ⟨c0, r0⟩ <;> rw [hc] at hd'
    · exact hacc d' hd'
    · by_cases h0 : c0 = ':'
      · subst h0
        simp only [] at hd'
        split at hd'
        · rcases List.mem_append.mp hd' with h1 | h1
          · exact hacc d' h1
          · simp at h1; simp [h1]
        · exact hacc d' hd'
      · have : (match c0 :: r0 with
          | ':' :: rest =>
            let segs := splitOnDoubleColon rest []
            if segs.any fun s => trimL s = [] then
              (acc.1, acc.2 ++ [(⟨badCategoryCode⟩ : Diag)])
            else
              (acc.1 ++ [(⟨segs.map fun s => (⟨s⟩ : String)⟩ : CategoryPath)],
                acc.2)
          | _ => acc) = acc := by
          rcases c0 with ⟨n⟩
          simp only []
          split
          · rename_i heq
            injection heq with heq1 heq2
            exact absurd (by rw [heq1]) h0
          · rfl
        rw [this] at hd'
        exact hacc d' hd'

/-- A task line with an undefined end carries the missing-start error. -/
theorem endOf_none_missing (st : AnState) (rl : ParsedLineRaw)
    (tk : RawTaskParts) (h : endOf st tk = none) :
    (⟨missingStartCode⟩ : Diag) ∈ taskDiagsOf st rl tk := by
  have hstart : startOf st tk = none := by
    unfold endOf at h
    rcases hs : startOf st tk with _ | v
    · rfl
    · rw [hs] at h; cases h
  have hmiss : (startResolution st tk).2.2 = [⟨missingStartCode⟩] := by
    unfold startOf at hstart
    unfold startResolution at hstart ⊢
    revert hstart
    rcases parsedTimeOf tk with _ | v
    · rcases st.cursorTime with _ | c
      · intro _; rfl
      · intro hstart; cases hstart
    · rcases v with _ | v'
      · rcases st.cursorTime with _ | c
        · intro _; rfl
        · intro hstart; cases hstart
      · intro hstart; cases hstart
  unfold taskDiagsOf
  rw [hmiss]
  simp

theorem isErrorDiag_missing : isErrorDiag ⟨missingStartCode⟩ = true := rfl

/-- No error diagnostics forces a defined end instant. -/
theorem noErrors_endOf_some (st : AnState) (rl : ParsedLineRaw)
    (tk : RawTaskParts)
    (h : (taskDiagsOf st rl tk).any isErrorDiag = false) :
    (endOf st tk).isSome = true := by
  rcases he : endOf st tk with _ | e
  · exfalso
    have hm := endOf_none_missing st rl tk he
    have : (taskDiagsOf st rl tk).any isErrorDiag = true :=
      List.any_eq_true.mpr ⟨⟨missingStartCode⟩, hm, isErrorDiag_missing⟩
    rw [h] at this; cases this
  · rfl

/-- Dispatch of `analyzeLine` on a task record. -/
theorem analyzeLineStep_task (st : AnState) (idx : Nat)
    (rl : ParsedLineRaw) (tk : RawTaskParts) (htk : rl.task = some tk)
    (hb : rl.isBlank = false) (hc : rl.isComment = false)
    (hd : rl.directive = none) :
    analyzeLineStep st idx rl =
      analyzeTaskStep st rl tk (generateLineId rl.raw idx) := by
  unfold analyzeLineStep
  simp [hb, hc, hd, htk]

/-- The committal rule at the level of one task step: the cursor
advances to the node's end and the node joins the scheduled set iff the
line's diagnostics contain no error-class code. -/
theorem analyzeTaskStep_commit_iff (st : AnState) (rl : ParsedLineRaw)
    (tk : RawTaskParts) (id : String) :
    ((¬ ∃ d ∈ (analyzeTaskStep st rl tk id).1.diagnostics,
        isErrorDiag d = true) ↔
      ((analyzeTaskStep st rl tk id).2.cursorTime =
          (taskNodeOf st tk).endTime ∧
        (taskNodeOf st tk).endTime ≠ none ∧
        (analyzeTaskStep st rl tk id).2.tasks =
          st.tasks ++ [taskNodeOf st tk])) ∧
    ((∃ d ∈ (analyzeTaskStep st rl tk id).1.diagnostics,
        isErrorDiag d = true) → (analyzeTaskStep st rl tk id).2 = st) := by
  have hdiags : (analyzeTaskStep st rl tk id).1.diagnostics =
      taskDiagsOf st rl tk := rfl
  have hstate := analyzeTaskStep_state st rl tk id
  by_cases herr : (taskDiagsOf st rl tk).any isErrorDiag = true
  · constructor
    · constructor
      · intro hno
        exact absurd (List.any_eq_true.mp herr) (by
          rw [hdiags] at hno
          simpa using hno)
      · intro ⟨h1, h2, h3⟩
        have hst : (analyzeTaskStep st rl tk id).2 = st := by
          rw [hstate, if_neg]
          intro hcon
          rw [herr] at hcon
          simp at hcon
        rw [hst] at h3
        have := congrArg List.length h3
        simp at this
    · intro _
      rw [hstate, if_neg]
      intro hcon
      rw [herr] at hcon
      simp at hcon
  · have herr' : (taskDiagsOf st rl tk).any isErrorDiag = false :=
      Bool.eq_false_iff.mpr herr
    have hend := noErrors_endOf_some st rl tk herr'
    have hcommit : (analyzeTaskStep st rl tk id).2 =
        { st with cursorTime := endOf st tk,
                  tasks := st.tasks ++ [taskNodeOf st tk] } := by
      rw [hstate, if_pos ⟨by rw [herr']; rfl, hend⟩]
    constructor
    · constructor
      · intro _
        refine ⟨by rw [hcommit]; rfl, ?_, by rw [hcommit]⟩
        have : (taskNodeOf st tk).endTime = endOf st tk := rfl
        rw [this]
        rcases Option.isSome_iff_exists.mp hend with ⟨e, he⟩
        rw [he]
        simp
      · intro _
        rw [hdiags]
        intro ⟨d, hd, hde⟩
        exact herr (List.any_eq_true.mpr ⟨d, hd, hde⟩)
    · intro ⟨d, hd, hde⟩
      rw [hdiags] at hd
      exact absurd (List.any_eq_true.mpr ⟨d, hd, hde⟩) herr

/-- Unpack a raw record by index: it is the phase-0 step at its line,
under the section reached by the prefix. -/
theorem rawLinesOf_get?_shape (doc : List String) (i : Nat)
    (rl : ParsedLineRaw) (h : (rawLinesOf doc).get? i = some rl) :
    ∃ line, doc.get? i = some line ∧
      rl = (phase0Step (phase0SectState .planner 0 (doc.take i)) i line).1
    := by
  unfold rawLinesOf at h
  rw [List.get?_map, phase0Go_get?] at h
  rcases hl : doc.get? i with _ | line
  · rw [hl] at h; cases h
  · rw [hl] at h
    simp only [Option.map_some', Option.some_inj] at h
    exact ⟨line, rfl, by rw [← h]; simp⟩

/-- A task-carrying raw record is a non-blank, non-comment,
non-directive record. -/
theorem rawLines_task_flags (doc : List String) (i : Nat)
    (rl : ParsedLineRaw) (tk : RawTaskParts)
    (h : (rawLinesOf doc).get? i = some rl) (htk : rl.task = some tk) :
    rl.isBlank = false ∧ rl.isComment = false ∧ rl.directive = none := by
  rcases rawLinesOf_get?_shape doc i rl h with ⟨line, _, hrl⟩
  rw [hrl] at htk ⊢
  exact phase0Step_task_shape _ _ _ _ htk

/-- The parsed line of a task record, as the task step. -/
theorem analyzeTrace_task (doc : List String) (today : String)
    (tz : Option String) (i : Nat) (st : AnState) (pl : ParsedLine)
    (rl : ParsedLineRaw) (tk : RawTaskParts)
    (hline : (analyzeTrace doc today tz).get? i = some (st, pl))
    (hraw : (rawLinesOf doc).get? i = some rl)
    (htk : rl.task = some tk) :
    pl = (analyzeTaskStep st rl tk (generateLineId rl.raw i)).1 ∧
      (analyzeLineStep st i rl).2 =
        (analyzeTaskStep st rl tk (generateLineId rl.raw i)).2 := by
  rcases analyzeTrace_elim doc today tz i st pl hline with ⟨rl', hraw', _, hpl⟩
  rw [hraw] at hraw'
  injection hraw' with hrl
  subst hrl
  rcases rawLines_task_flags doc i rl tk hraw htk with ⟨hb, hc, hd⟩
  have hstep := analyzeLineStep_task st i rl tk htk hb hc hd
  rw [hpl, hstep]
  exact ⟨rfl, rfl⟩

/-- `takeWhile` over a run of satisfying elements followed by a failing one. -/
theorem takeWhile_append_not (p : Char → Bool) (xs : List Char) (y : Char)
    (ys : List Char) (hxs : ∀ x ∈ xs, p x = true) (hy : p y = false) :
    (xs ++ y :: ys).takeWhile p = xs := by
  induction xs with
  | nil => simp [List.takeWhile_cons, hy]
  | cons a r ih =>
    have ha : p a = true := hxs a (by simp)
    simp only [List.cons_append, List.takeWhile_cons, ha, if_true]
    rw [ih (fun x hx => hxs x (by simp [hx]))]

/-- `dropWhile` over a run of satisfying elements followed by a failing one. -/
theorem dropWhile_append_not (p : Char → Bool) (xs : List Char) (y : Char)
    (ys : List Char) (hxs : ∀ x ∈ xs, p x = true) (hy : p y = false) :
    (xs ++ y :: ys).dropWhile p = y :: ys := by
  induction xs with
  | nil => simp [List.dropWhile_cons, hy]
  | cons a r ih =>
    have ha : p a = true := hxs a (by simp)
    simp only [List.cons_append, List.dropWhile_cons, ha, if_true]
    exact ih (fun x hx => hxs x (by simp [hx]))

/-- Trimming a string whose first character is not whitespace never yields the empty list. -/
theorem trimL_ne_nil (c : Char) (l : List Char) (hc : isWs c = false) :
    trimL (c :: l) ≠ [] := by
  unfold trimL
  rw [List.dropWhile_cons]
  rw [if_neg (by simp [hc])]
  intro h
  rw [List.reverse_eq_nil_iff] at h
  rw [List.dropWhile_eq_nil_iff] at h
  have h2 := h c (by simp)
  simp [h2] at hc

/-- A grammar decomposition determines `parseTimeOffset`: the parse succeeds with exactly the decomposed offset unless its total magnitude is zero. -/
theorem specOffsetGrammar_parseTimeOffset (s : String) (o : TimeOffset)
    (hg : specOffsetGrammar s o) :
    parseTimeOffset s =
      if o.hours = 0 ∧ o.minutes = 0 then none else some o := by
  obtain ⟨oh, om, osg⟩ := o
  obtain ⟨sig, hstr, mstr, hdata, hsig, hh, hm, hone, hsign⟩ := hg
  dsimp only at hh hm hsign
  dsimp only
  have hsigb : (sig = '+' || sig = '-') = true := by
    rcases hsig with h | h <;> simp [h]
  unfold parseTimeOffset
  rw [hdata]
  simp only [hsigb, if_true]
  rcases hh with ⟨hhe, hn0⟩ | ⟨ds0, hds0ne, hds0dig, hhstr, hn⟩
  · -- no hour component
    rcases hm with ⟨hme, hm0⟩ | ⟨ds2, hds2ne, hds2dig, hmstr, hmn⟩
    · exact absurd ⟨hhe, hme⟩ hone
    · subst hhe; subst hmstr
      simp only [List.nil_append]
      have e2 : List.takeWhile Char.isDigit (ds2 ++ ['m']) = ds2 :=
        takeWhile_append_not _ _ _ _ hds2dig (by decide)
      have e3 : List.dropWhile Char.isDigit (ds2 ++ ['m']) = ['m'] :=
        dropWhile_append_not _ _ _ _ hds2dig (by decide)
      simp only [e2, e3]
      rw [if_neg (show ¬(ds2 ≠ [] ∧ (['m'] : List Char).head? = some 'h') from
        by simp)]
      dsimp only
      simp only [e2, e3]
      rw [if_pos (show ds2 ≠ [] ∧ (['m'] : List Char).head? = some 'm' from
        ⟨hds2ne, rfl⟩)]
      dsimp only [List.tail_cons]
      rw [if_pos (show ([] : List Char) = [] from rfl)]
      subst hn0; subst hmn; subst hsign
      simp
  · -- hour component present
    subst hhstr
    have e2 : List.takeWhile Char.isDigit (ds0 ++ ['h'] ++ mstr) = ds0 := by
      rw [List.append_assoc, List.singleton_append]
      exact takeWhile_append_not _ _ _ _ hds0dig (by decide)
    have e3 : List.dropWhile Char.isDigit (ds0 ++ ['h'] ++ mstr) =
        'h' :: mstr := by
      rw [List.append_assoc, List.singleton_append]
      exact dropWhile_append_not _ _ _ _ hds0dig (by decide)
    simp only [e2, e3]
    rw [if_pos (show ds0 ≠ [] ∧ ('h' :: mstr).head? = some 'h' from
      ⟨hds0ne, rfl⟩)]
    dsimp only [List.tail_cons]
    rcases hm with ⟨hme, hm0⟩ | ⟨ds2, hds2ne, hds2dig, hmstr, hmn⟩
    · subst hme
      simp only [List.takeWhile_nil, List.dropWhile_nil]
      rw [if_neg (show ¬(([] : List Char) ≠ [] ∧
        ([] : List Char).head? = some 'm') from by simp)]
      dsimp only
      rw [if_pos (show ([] : List Char) = [] from rfl)]
      subst hn; subst hm0; subst hsign
      simp
    · subst hmstr
      have e4 : List.takeWhile Char.isDigit (ds2 ++ ['m']) = ds2 :=
        takeWhile_append_not _ _ _ _ hds2dig (by decide)
      have e5 : List.dropWhile Char.isDigit (ds2 ++ ['m']) = ['m'] :=
        dropWhile_append_not _ _ _ _ hds2dig (by decide)
      simp only [e4, e5]
      rw [if_pos (show ds2 ≠ [] ∧ (['m'] : List Char).head? = some 'm' from
        ⟨hds2ne, rfl⟩)]
      dsimp only [List.tail_cons]
      rw [if_pos (show ([] : List Char) = [] from rfl)]
      subst hn; subst hmn; subst hsign
      simp

/-- A successful `parseTimeOffset` yields a decomposition of the input under the spec grammar, with nonzero total magnitude. -/
theorem parseTimeOffset_specOffsetGrammar (s : String) (o : TimeOffset)
    (h : parseTimeOffset s = some o) :
    specOffsetGrammar s o ∧ ¬(o.hours = 0 ∧ o.minutes = 0) := by
  obtain ⟨oh, om, osg⟩ := o
  unfold parseTimeOffset at h
  rcases hdata : s.data with _ | ⟨c, rest⟩ <;> rw [hdata] at h
  · exact absurd h (by simp)
  · simp only [] at h
    split at h
    case isFalse => exact absurd h (by simp)
    case isTrue hc =>
    have hcc : c = '+' ∨ c = '-' := by
      simpa [Bool.or_eq_true, decide_eq_true_eq] using hc
    split at h
    case isTrue h1 =>
      -- hour component consumed
      rcases hr : rest.dropWhile Char.isDigit with _ | ⟨y, ys⟩ <;>
        rw [hr] at h1
      · exact absurd h1.2 (by simp)
      have hy : y = 'h' := by simpa using h1.2
      subst hy
      rw [hr] at h
      simp only [List.tail_cons] at h
      have hrest : rest = rest.takeWhile Char.isDigit ++ 'h' :: ys := by
        conv_lhs => rw [← List.takeWhile_append_dropWhile Char.isDigit rest]
        rw [hr]
      split at h
      case isTrue h2 =>
        rcases hr2 : ys.dropWhile Char.isDigit with _ | ⟨z, zs⟩ <;>
          rw [hr2] at h2
        · exact absurd h2.2 (by simp)
        have hz : z = 'm' := by simpa using h2.2
        subst hz
        rw [hr2] at h
        simp only [List.tail_cons] at h
        split at h
        case isFalse h3 => exact absurd h (by simp)
        case isTrue h3 =>
        subst h3
        split at h
        case isTrue h4 => exact absurd h (by simp)
        case isFalse h4 =>
        try simp only [] at h4
        simp only [Option.some.injEq, TimeOffset.mk.injEq] at h
        obtain ⟨ha, hb, hc'⟩ := h
        subst ha; subst hb; subst hc'
        have hys : ys = ys.takeWhile Char.isDigit ++ ['m'] := by
          conv_lhs => rw [← List.takeWhile_append_dropWhile Char.isDigit ys]
          rw [hr2]
        refine ⟨⟨c, rest.takeWhile Char.isDigit ++ ['h'],
          ys.takeWhile Char.isDigit ++ ['m'], ?_, hcc, ?_, ?_, by simp, rfl⟩,
          h4⟩
        · rw [hdata]
          conv_lhs => rw [hrest, hys]
          simp
        · exact Or.inr ⟨rest.takeWhile Char.isDigit, h1.1,
            fun x hx => List.mem_takeWhile_imp hx, rfl, rfl⟩
        · exact Or.inr ⟨ys.takeWhile Char.isDigit, h2.1,
            fun x hx => List.mem_takeWhile_imp hx, rfl, rfl⟩
      case isFalse h2 =>
        simp only [] at h
        split at h
        case isFalse h3 => exact absurd h (by simp)
        case isTrue h3 =>
        subst h3
        split at h
        case isTrue h4 => exact absurd h (by simp)
        case isFalse h4 =>
        try simp only [] at h4
        simp only [Option.some.injEq, TimeOffset.mk.injEq] at h
        obtain ⟨ha, hb, hc'⟩ := h
        subst ha; subst hb; subst hc'
        refine ⟨⟨c, rest.takeWhile Char.isDigit ++ ['h'], [], ?_, hcc,
          ?_, Or.inl ⟨rfl, rfl⟩, by simp, rfl⟩, fun hx => h4 ⟨hx.1, trivial⟩⟩
        · rw [hdata]
          conv_lhs => rw [hrest]
          simp
        · exact Or.inr ⟨rest.takeWhile Char.isDigit, h1.1,
            fun x hx => List.mem_takeWhile_imp hx, rfl, rfl⟩
    case isFalse h1 =>
      simp only [] at h
      split at h
      case isTrue h2 =>
        rcases hr2 : rest.dropWhile Char.isDigit with _ | ⟨z, zs⟩ <;>
          rw [hr2] at h2
        · exact absurd h2.2 (by simp)
        have hz : z = 'm' := by simpa using h2.2
        subst hz
        rw [hr2] at h
        simp only [List.tail_cons] at h
        split at h
        case isFalse h3 => exact absurd h (by simp)
        case isTrue h3 =>
        subst h3
        split at h
        case isTrue h4 => exact absurd h (by simp)
        case isFalse h4 =>
        try simp only [] at h4
        simp only [Option.some.injEq, TimeOffset.mk.injEq] at h
        obtain ⟨ha, hb, hc'⟩ := h
        subst ha; subst hb; subst hc'
        have hrest : rest = rest.takeWhile Char.isDigit ++ ['m'] := by
          conv_lhs => rw [← List.takeWhile_append_dropWhile Char.isDigit rest]
          rw [hr2]
        refine ⟨⟨c, [], rest.takeWhile Char.isDigit ++ ['m'], ?_, hcc,
          Or.inl ⟨rfl, rfl⟩, ?_, by simp, rfl⟩, fun hx => h4 ⟨trivial, hx.2⟩⟩
        · rw [hdata]
          conv_lhs => rw [hrest]
          simp
        · exact Or.inr ⟨rest.takeWhile Char.isDigit, h2.1,
            fun x hx => List.mem_takeWhile_imp hx, rfl, rfl⟩
      case isFalse h2 =>
        simp only [] at h
        split at h
        case isFalse h3 => exact absurd h (by simp)
        case isTrue h3 =>
        split at h
        case isTrue h4 => exact absurd h (by simp)
        case isFalse h4 => exact (h4 (by simp)).elim

/-- A grammar-matching offset string is not all-whitespace. -/
theorem specOffsetGrammar_trimS_ne (s : String) (o : TimeOffset)
    (hg : specOffsetGrammar s o) : trimS s ≠ "" := by
  obtain ⟨sig, hstr, mstr, hdata, hsig, -, -, -, -⟩ := hg
  intro he
  have : trimL s.data ≠ [] := by
    rw [hdata]
    exact trimL_ne_nil sig _ (by rcases hsig with rfl | rfl <;> decide)
  exact this (congrArg String.data he)

/-- `validateTimeOffset` accepts exactly the grammar-matching offsets with nonzero total magnitude of at most 12 hours. -/
theorem validateTimeOffset_valid_iff (s : String) :
    (validateTimeOffset s).valid = true ↔
      ∃ o, specOffsetGrammar s o ∧ 0 < o.hours * 60 + o.minutes ∧
        o.hours * 60 + o.minutes ≤ 720 := by
  constructor
  · intro hv
    unfold validateTimeOffset at hv
    split at hv
    · simp at hv
    · rcases hp : parseTimeOffset s with _ | o <;> rw [hp] at hv
      · simp at hv
      · simp only [] at hv
        split at hv
        · simp at hv
        · obtain ⟨hg, hz⟩ := parseTimeOffset_specOffsetGrammar s o hp
          exact ⟨o, hg, by omega, by omega⟩
  · rintro ⟨o, hg, hpos, hle⟩
    have hz : ¬(o.hours = 0 ∧ o.minutes = 0) := by omega
    have hp := specOffsetGrammar_parseTimeOffset s o hg
    rw [if_neg hz] at hp
    unfold validateTimeOffset
    rw [if_neg (specOffsetGrammar_trimS_ne s o hg), hp]
    simp only []
    rw [if_neg (show ¬(o.hours * 60 + o.minutes > 12 * 60) from by omega)]

/-- A parsed offset above 12 hours is rejected with the magnitude message. -/
theorem validateTimeOffset_tooLarge (s : String) (o : TimeOffset)
    (hp : parseTimeOffset s = some o)
    (hgt : o.hours * 60 + o.minutes > 720) :
    validateTimeOffset s = ⟨false, some offsetTooLargeMsg⟩ := by
  obtain ⟨hg, -⟩ := parseTimeOffset_specOffsetGrammar s o hp
  unfold validateTimeOffset
  rw [if_neg (specOffsetGrammar_trimS_ne s o hg), hp]
  simp only []
  rw [if_pos (show o.hours * 60 + o.minutes > 12 * 60 from by omega)]

/-- A grammar-matching zero-magnitude offset is rejected with the plain format message. -/
theorem validateTimeOffset_zero_format (s : String) (o : TimeOffset)
    (hg : specOffsetGrammar s o) (hh : o.hours = 0) (hm : o.minutes = 0) :
    validateTimeOffset s = ⟨false, some offsetFormatErrorMsg⟩ := by
  have hp := specOffsetGrammar_parseTimeOffset s o hg
  rw [if_pos ⟨hh, hm⟩] at hp
  unfold validateTimeOffset
  rw [if_neg (specOffsetGrammar_trimS_ne s o hg), hp]

/-- `validateTimeOffset` either accepts, or rejects with some message. -/
theorem validateTimeOffset_error_shape (s : String) :
    (validateTimeOffset s).valid = true ∨
      ∃ m, validateTimeOffset s = ⟨false, some m⟩ := by
  unfold validateTimeOffset
  split
  · exact Or.inr ⟨_, rfl⟩
  · split
    · exact Or.inr ⟨_, rfl⟩
    · split
      · exact Or.inr ⟨_, rfl⟩
      · exact Or.inl rfl

/-- `applyTimeOffsetToTimeString` either succeeds with a rendered time, or fails with the invalid-format message and no time. -/
theorem applyTimeOffsetToTimeString_shape (t : String) (o : TimeOffset) :
    (∃ nt, applyTimeOffsetToTimeString t o = ⟨true, some nt, none⟩) ∨
      applyTimeOffsetToTimeString t o =
        ⟨false, none, some ("Invalid time format: " ++ t)⟩ := by
  unfold applyTimeOffsetToTimeString
  rcases hpt : parseTimeString t with ⟨su, hh, mm, ff⟩
  rcases hh with _ | h <;> rcases mm with _ | m <;> rcases ff with _ | f <;>
    rcases su with _ | _ <;>
    first
      | exact Or.inl ⟨_, rfl⟩
      | exact Or.inr rfl

/-- `shiftTaskTime` either succeeds with new line text, or fails with a message and no text. -/
theorem shiftTaskTime_shape (raw : String) (task : TaskNode) (off : String) :
    (∃ nl, shiftTaskTime raw task off = ⟨true, some nl, none, none⟩) ∨
      (∃ msg, shiftTaskTime raw task off = ⟨false, none, some msg, none⟩) := by
  unfold shiftTaskTime
  rcases hp : parseTimeOffset off with _ | po
  · exact Or.inr ⟨_, rfl⟩
  · simp only []
    split
    · rcases hf : findTimeTokenInLine raw with _ | tok
      · exact Or.inr ⟨_, rfl⟩
      · simp only []
        rcases applyTimeOffsetToTimeString_shape tok.timeStr po with ⟨nt, hA⟩ | hA <;> rw [hA]
        · exact Or.inl ⟨_, rfl⟩
        · exact Or.inr ⟨_, rfl⟩
    · split
      · rcases hs : task.start with _ | st
        · exact Or.inr ⟨_, rfl⟩
        · simp only []
          rcases hd : dashSplit raw.data with _ | ⟨pre, content⟩
          · exact Or.inr ⟨_, rfl⟩
          · exact Or.inl ⟨_, rfl⟩
      · exact Or.inr ⟨_, rfl⟩

/-- `executeTimeShift` either succeeds with new text and an affected-line list, or fails with a message and no text. -/
theorem executeTimeShift_shape (line : ParsedLine) (off : String)
    (all : List ParsedLine) :
    (∃ nl aff, executeTimeShift line off all = ⟨true, some nl, none, some aff⟩) ∨
      (∃ msg, executeTimeShift line off all = ⟨false, none, some msg, none⟩) := by
  unfold executeTimeShift
  rcases validateTimeOffset_error_shape off with hval | ⟨m, hm⟩
  · simp only [hval, Bool.not_true, if_neg (by simp : ¬(false = true))]
    rcases hnode : line.node with _ | nd
    · exact Or.inr ⟨_, rfl⟩
    · rcases nd with t | d
      · simp only []
        by_cases hfmt : validateTaskLineFormat line.raw
        · rw [if_neg (by simp [hfmt])]
          rcases shiftTaskTime_shape line.raw t off with ⟨nl, hS⟩ | ⟨msg, hS⟩ <;>
            rw [hS]
          · exact Or.inl ⟨_, _, rfl⟩
          · exact Or.inr ⟨_, rfl⟩
        · rw [if_pos (by simp [Bool.eq_false_iff.mpr hfmt])]
          exact Or.inr ⟨_, rfl⟩
      · exact Or.inr ⟨_, rfl⟩
  · rw [hm]
    simp only []
    exact Or.inr ⟨_, rfl⟩

/-- `takeWhile` over a list of satisfying elements is the whole list. -/
theorem takeWhile_all (p : Char → Bool) (l : List Char)
    (h : ∀ x ∈ l, p x = true) : l.takeWhile p = l := by
  induction l with
  | nil => rfl
  | cons a r ih =>
    simp only [List.takeWhile_cons, h a (by simp), if_true]
    rw [ih (fun x hx => h x (by simp [hx]))]


/-- `dropWhile` over a list of satisfying elements is empty. -/
theorem dropWhile_all (p : Char → Bool) (l : List Char)
    (h : ∀ x ∈ l, p x = true) : l.dropWhile p = [] :=
  List.dropWhile_eq_nil_iff.mpr h

/-- `Map.set` then `get` at the same key. -/
theorem mapSet_lookup_self (k : String) (v : LineShiftResult)
    (l : List (String × LineShiftResult)) :
    (mapSet k v l).lookup k = some v := by
  induction l with
  | nil => simp [mapSet, List.lookup]
  | cons kv r ih =>
    rcases kv with ⟨k', v'⟩
    unfold mapSet
    by_cases hk : k' = k
    · rw [if_pos hk]
      simp [List.lookup]
    · rw [if_neg hk]
      have hb : (k == k') = false := by
        simp [Ne.symm hk]
      simp only [List.lookup, hb]
      exact ih

/-- `Map.set` leaves other keys unchanged. -/
theorem mapSet_lookup_other (a k : String) (v : LineShiftResult)
    (l : List (String × LineShiftResult)) (h : a ≠ k) :
    (mapSet k v l).lookup a = l.lookup a := by
  have hb : (a == k) = false := by simp [h]
  induction l with
  | nil => simp [mapSet, List.lookup, hb]
  | cons kv r ih =>
    rcases kv with ⟨k', v'⟩
    unfold mapSet
    by_cases hk : k' = k
    · rw [if_pos hk]
      subst hk
      simp only [List.lookup, hb]
    · rw [if_neg hk]
      by_cases ha : a = k'
      · subst ha
        simp [List.lookup]
      · have hb' : (a == k') = false := by simp [ha]
        simp only [List.lookup, hb']
        exact ih

/-- Folding `mapSet` over lines none of which carry a key leaves that key unchanged. -/
theorem foldl_mapSet_lookup_untouched (f : ParsedLine → LineShiftResult)
    (lines : List ParsedLine) (acc : List (String × LineShiftResult))
    (a : String) (ha : ∀ l ∈ lines, l.id ≠ a) :
    (lines.foldl (fun acc line => mapSet line.id (f line) acc) acc).lookup a =
      acc.lookup a := by
  induction lines generalizing acc with
  | nil => rfl
  | cons line rest ih =>
    simp only [List.foldl_cons]
    rw [ih _ (fun l hl => ha l (by simp [hl]))]
    exact mapSet_lookup_other a line.id (f line) acc
      (fun he => ha line (by simp) he.symm)

/-- With distinct ids, the folded batch map holds each line its own result. -/
theorem foldl_mapSet_lookup (f : ParsedLine → LineShiftResult)
    (lines : List ParsedLine) (acc : List (String × LineShiftResult))
    (l : ParsedLine) (hl : l ∈ lines)
    (hnd : (lines.map (fun pl => pl.id)).Nodup) :
    (lines.foldl (fun acc line => mapSet line.id (f line) acc) acc).lookup
      l.id = some (f l) := by
  induction lines generalizing acc with
  | nil => cases hl
  | cons line rest ih =>
    simp only [List.map_cons, List.nodup_cons] at hnd
    rcases List.mem_cons.mp hl with rfl | hl'
    · simp only [List.foldl_cons]
      rw [foldl_mapSet_lookup_untouched f rest _ l.id
        (fun l' hl' he => hnd.1 (he ▸ List.mem_map_of_mem _ hl'))]
      exact mapSet_lookup_self l.id (f l) acc
    · simp only [List.foldl_cons]
      exact ih _ hl' hnd.2

/-- `parseLineContent`'s directive field does not depend on the section mode (directives are recognized before the scratchpad guard). -/
theorem parseLineContent_directive_indep (line : String) (s s' : SectionMode) :
    (parseLineContent line s).directive = (parseLineContent line s').directive := by
  unfold parseLineContent
  rcases h1 : lineContentOpt line with _ | content
  · rfl
  · simp only []
    rcases h2 : (if content.head? = some '!'
        then parseDirectiveContent content else none) with _ | d
    · simp only []
      by_cases hs : s = SectionMode.scratchpad <;>
        by_cases hs' : s' = SectionMode.scratchpad <;>
        simp [hs, hs']
    · rfl

/-- The raw record's directive field depends on neither section mode nor index. -/
theorem phase0Step_directive_indep (line : String) (s s' : SectionMode)
    (i i' : Nat) :
    ((phase0Step s i line).1).directive =
      ((phase0Step s' i' line).1).directive := by
  unfold phase0Step
  by_cases hg : phase0Guard line
  · simp only [hg, if_true]
    exact parseLineContent_directive_indep line s s'
  · simp only [hg]
    rfl

/-- The directive column of phase 0 is independent of the starting section and index. -/
theorem phase0Go_directives (ls : List String) (sect : SectionMode) (idx : Nat) :
    (phase0Go sect idx ls).map (fun p => p.1.directive) =
      ls.map (fun line => ((phase0Step .planner 0 line).1).directive) := by
  induction ls generalizing sect idx with
  | nil => rfl
  | cons line rest ih =>
    simp only [phase0Go, List.map_cons]
    rw [ih]
    rw [phase0Step_directive_indep line sect .planner idx 0]

/-- `pass1` reads only the directive column. -/
theorem pass1_congr (raws1 raws2 : List ParsedLineRaw)
    (ctx : AnalysisContext)
    (h : raws1.map (fun rl => rl.directive) =
      raws2.map (fun rl => rl.directive)) :
    pass1 ctx raws1 = pass1 ctx raws2 := by
  induction raws1 generalizing raws2 ctx with
  | nil =>
    cases raws2 with
    | nil => rfl
    | cons b bs => simp at h
  | cons a as ih =>
    cases raws2 with
    | nil => simp at h
    | cons b bs =>
      simp only [List.map_cons, List.cons.injEq] at h
      simp only [pass1, List.foldl_cons]
      rw [h.1]
      exact ih bs _ h.2

/-- `pass1` splits over an append. -/
theorem pass1_append (xs ys : List ParsedLineRaw) (ctx : AnalysisContext) :
    pass1 ctx (xs ++ ys) = pass1 (pass1 ctx xs) ys := by
  simp [pass1, List.foldl_append]

/-- Inserting a bare section directive leaves the analysis of every preceding line unchanged. -/
theorem analyze_section_insert_take (pre post : List String) (ins today : String)
    (tz : Option String) (hins : ins = "!scratchpad" ∨ ins = "!planner") :
    (analyze (pre ++ ins :: post) today tz).lines.take pre.length =
      (analyze (pre ++ post) today tz).lines.take pre.length := by
  rcases hstep : phase0Step (phase0SectState .planner 0 pre) pre.length ins
    with ⟨insRL, s2⟩
  have h1 : insRL = (phase0Step (phase0SectState .planner 0 pre)
      pre.length ins).1 := by rw [hstep]
  have hdirI : insRL.directive = some ⟨"scratchpad", []⟩ ∨
      insRL.directive = some ⟨"planner", []⟩ := by
    rcases hins with rfl | rfl
    · left; rw [h1]; rfl
    · right; rw [h1]; rfl
  have hA : rawLinesOf (pre ++ ins :: post) =
      (phase0Go .planner 0 pre).map (·.1) ++
        insRL :: (phase0Go s2 (pre.length + 1) post).map (·.1) := by
    unfold rawLinesOf
    rw [phase0Go_append]
    simp only [Nat.zero_add, List.map_append]
    congr 1
    rw [phase0Go, hstep]
    simp
  have hB : rawLinesOf (pre ++ post) =
      (phase0Go .planner 0 pre).map (·.1) ++
        (phase0Go (phase0SectState .planner 0 pre) pre.length post).map
          (·.1) := by
    unfold rawLinesOf
    rw [phase0Go_append]
    simp only [Nat.zero_add, List.map_append]
  have hctx : pass1 (initialContext today tz)
      ((phase0Go .planner 0 pre).map (·.1) ++
        insRL :: (phase0Go s2 (pre.length + 1) post).map (·.1)) =
      pass1 (initialContext today tz)
        ((phase0Go .planner 0 pre).map (·.1) ++
          (phase0Go (phase0SectState .planner 0 pre) pre.length post).map
            (·.1)) := by
    rw [pass1_append, pass1_append]
    have hpeel : pass1 (pass1 (initialContext today tz)
        ((phase0Go .planner 0 pre).map (·.1)))
        (insRL :: (phase0Go s2 (pre.length + 1) post).map (·.1)) =
      pass1 (pass1 (initialContext today tz)
        ((phase0Go .planner 0 pre).map (·.1)))
        ((phase0Go s2 (pre.length + 1) post).map (·.1)) := by
      simp only [pass1, List.foldl_cons]
      rcases hdirI with hd | hd <;> rw [hd] <;> rfl
    rw [hpeel]
    apply pass1_congr
    rw [List.map_map, List.map_map]
    have e1 := phase0Go_directives post s2 (pre.length + 1)
    have e2 := phase0Go_directives post (phase0SectState .planner 0 pre) pre.length
    calc ((phase0Go s2 (pre.length + 1) post).map
            (fun p => p.1.directive)) =
          post.map (fun line => ((phase0Step .planner 0 line).1).directive) :=
            e1
      _ = (phase0Go (phase0SectState .planner 0 pre) pre.length post).map
            (fun p => p.1.directive) := e2.symm
  unfold analyze
  simp only []
  rw [hA, hB, hctx]
  rw [pass2Go_append, pass2Go_append, List.map_append, List.map_append]
  have hlen : ((pass2Go ⟨pass1 (initialContext today tz)
      ((phase0Go .planner 0 pre).map (·.1) ++
        (phase0Go (phase0SectState .planner 0 pre) pre.length post).map
          (·.1)), none, []⟩ 0 ((phase0Go .planner 0 pre).map (·.1))).map
      (·.2)).length = pre.length := by
    rw [List.length_map, pass2Go_length, List.length_map, phase0Go_length]
  rw [List.take_left' hlen, List.take_left' hlen]

/-!
# The claims
-/

/-- The resolved duration of the task node on line `i` (0-based). -/
def nodeDurationAt (p : Program) (i : Nat) : Option Nat :=
  match p.lines.get? i with
  | some pl =>
    match pl.node with
    | some (.task t) => some t.durationMin
    | _ => none
  | none => none

/-- The status of line `i` (0-based). -/
def lineStatusAt (p : Program) (i : Nat) : Option LineStatus :=
  (p.lines.get? i).map (·.status)

/-- The diagnostics of line `i` (0-based). -/
def lineDiagsAt (p : Program) (i : Nat) : Option (List Diag) :=
  (p.lines.get? i).map (·.diagnostics)

/-- The node of line `i` (0-based). -/
def lineNodeAt (p : Program) (i : Nat) : Option (Option Node) :=
  (p.lines.get? i).map (·.node)

/-- C10: every planner-mode task line carries a task node whose title is
non-empty, the literal `Untitled` exactly when no title fragments
remain, whatever the line's status. -/
theorem c10_task_node_nonempty_title (doc : List String) (today : String)
    (tz : Option String) (i : Nat) (st : AnState) (pl : ParsedLine)
    (rl : ParsedLineRaw) (tk : RawTaskParts)
    (hline : (analyzeTrace doc today tz).get? i = some (st, pl))
    (hraw : (rawLinesOf doc).get? i = some rl)
    (htk : rl.task = some tk) :
    pl.node = some (.task (taskNodeOf st tk)) ∧
      (taskNodeOf st tk).title ≠ "" ∧
      (trimS (String.intercalate " " tk.titleParts) = "" →
        (taskNodeOf st tk).title = "Untitled") := by
  rcases analyzeTrace_task doc today tz i st pl rl tk hline hraw htk
    with ⟨hpl, _⟩
  refine ⟨by rw [hpl]; rfl, ?_, ?_⟩
  · have h : (taskNodeOf st tk).title = joinTitle tk.titleParts := rfl
    rw [h]
    unfold joinTitle
    split
    · decide
    · assumption
  · intro hj
    have h : (taskNodeOf st tk).title = joinTitle tk.titleParts := rfl
    rw [h]
    unfold joinTitle
    rw [if_pos hj]

/-- A one-line untitled-task document used by the C10 witness. -/
def c10Doc : List String := ["- 9am, 30m"]

def c10St : AnState := ⟨⟨"2025-01-15", none, 30, .warning⟩, none, []⟩

def c10Tk : RawTaskParts := ⟨some "9am", some "30m", [], []⟩

def c10Rl : ParsedLineRaw :=
  ⟨1, "- 9am, 30m", [], false, false, false, some c10Tk, none⟩

def c10Pl : ParsedLine :=
  ⟨"line_0_6251cb4a", "- 9am, 30m", 1, .valid, [],
    some (.task ⟨"Untitled", some 28948860, 30, some 28948890, [],
      true, true⟩)⟩

/-- Witness for C10 at a concrete document whose task line has no title
fragments. -/
theorem c10_task_node_nonempty_title_witness :
    (analyzeTrace c10Doc "2025-01-15" none).get? 0 = some (c10St, c10Pl) ∧
      (rawLinesOf c10Doc).get? 0 = some c10Rl ∧
      (c10Pl.node = some (.task (taskNodeOf c10St c10Tk)) ∧
        (taskNodeOf c10St c10Tk).title ≠ "" ∧
        (trimS (String.intercalate " " c10Tk.titleParts) = "" →
          (taskNodeOf c10St c10Tk).title = "Untitled")) :=
  ⟨by decide, by decide,
    c10_task_node_nonempty_title c10Doc "2025-01-15" none 0 c10St c10Pl
      c10Rl c10Tk (by decide) (by decide) (by decide)⟩

/-- A raw record without a time part resolves through the cursor; with
no cursor it gets the missing-start error and the line is invalid. -/
theorem taskStep_missing_start (st : AnState) (rl : ParsedLineRaw)
    (tk : RawTaskParts) (id : String) (htime : tk.time = none)
    (hcur : st.cursorTime = none) :
    (⟨missingStartCode⟩ : Diag) ∈
        (analyzeTaskStep st rl tk id).1.diagnostics ∧
      (analyzeTaskStep st rl tk id).1.status = .invalid := by
  have hpt : parsedTimeOf tk = none := by
    unfold parsedTimeOf
    rw [htime]
    rfl
  have hmiss : (startResolution st tk).2.2 = [⟨missingStartCode⟩] := by
    unfold startResolution
    rw [hpt, hcur]
  have hmem : (⟨missingStartCode⟩ : Diag) ∈ taskDiagsOf st rl tk := by
    unfold taskDiagsOf
    rw [hmiss]
    simp
  have hany : (taskDiagsOf st rl tk).any isErrorDiag = true :=
    List.any_eq_true.mpr ⟨_, hmem, isErrorDiag_missing⟩
  constructor
  · exact hmem
  · show (if (taskDiagsOf st rl tk).any isErrorDiag then LineStatus.invalid
      else if taskDiagsOf st rl tk ≠ [] then LineStatus.validWithWarnings
      else LineStatus.valid) = LineStatus.invalid
    rw [hany, if_pos rfl]

/-- C5 (amended to task lines): a planner-mode task line without an
explicit time token analyzed with no established cursor receives
`MISSING_START_FIRST_LINE` and is invalid; in particular, when no
earlier line carries a task (all earlier lines are blank, comments,
directives or other non-task lines) the first task line without a time
token always gets this diagnostic. -/
theorem c5_first_line_anchor (doc : List String) (today : String)
    (tz : Option String) (i : Nat) (st : AnState) (pl : ParsedLine)
    (rl : ParsedLineRaw) (tk : RawTaskParts)
    (hline : (analyzeTrace doc today tz).get? i = some (st, pl))
    (hraw : (rawLinesOf doc).get? i = some rl)
    (htk : rl.task = some tk) (htime : tk.time = none) :
    (st.cursorTime = none →
      (⟨missingStartCode⟩ : Diag) ∈ pl.diagnostics ∧
        pl.status = .invalid) ∧
    ((∀ j, j < i → ∀ rlj, (rawLinesOf doc).get? j = some rlj →
        rlj.task = none) →
      (⟨missingStartCode⟩ : Diag) ∈ pl.diagnostics ∧
        pl.status = .invalid) := by
  rcases analyzeTrace_task doc today tz i st pl rl tk hline hraw htk
    with ⟨hpl, _⟩
  constructor
  · intro hcur
    rw [hpl]
    exact taskStep_missing_start st rl tk _ htime hcur
  · intro hnone
    have hcur : st.cursorTime = none := by
      rcases analyzeTrace_elim doc today tz i st pl hline
        with ⟨rl', _, hst, _⟩
      rw [hst]
      rw [pass2State_no_task_cursor]
      intro r hr
      rcases (List.mem_iff_get?).mp hr with ⟨j, hj⟩
      have hjlt : j < i := by
        rcases List.get?_eq_some.mp hj with ⟨hlen, _⟩
        have hti : ((rawLinesOf doc).take i).length ≤ i := by
          simpa using List.length_take_le i (rawLinesOf doc)
        omega
      have hjr : (rawLinesOf doc).get? j = some r := by
        rw [← List.get?_take hjlt]
        exact hj
      exact hnone j hjlt r hjr
    rw [hpl]
    exact taskStep_missing_start st rl tk _ htime hcur

/-- Counterexample to C5 as stated: the first non-blank, non-comment,
non-directive line of the document `["hello"]` lacks an explicit time,
yet it receives no diagnostic at all and its status is `valid`, because
it is not a task line (no `-` marker). -/
theorem c5_counterexample :
    (rawLinesOf ["hello"]).get? 0 =
        some ⟨1, "hello", [], false, false, false, none, none⟩ ∧
      lineDiagsAt (analyze ["hello"] "2025-01-15" none) 0 = some [] ∧
      lineStatusAt (analyze ["hello"] "2025-01-15" none) 0 =
        some .valid := by
  decide

def c5Doc : List String := ["- !policy overlaps=warning", "- no time here"]

/-- Witness for C5: the first task line of `c5Doc` (line index 1, after
a directive) has no time token and is flagged invalid with the
missing-start error. -/
theorem c5_first_line_anchor_witness :
    (analyzeTrace c5Doc "2025-01-15" none).get? 1 =
        some (⟨⟨"2025-01-15", none, 30, .warning⟩, none, []⟩,
          ⟨"line_1_1643e529", "- no time here", 2, .invalid,
            [⟨missingStartCode⟩],
            some (.task ⟨"no time here", none, 30, none, [], false,
              false⟩)⟩) ∧
      (rawLinesOf c5Doc).get? 1 =
        some ⟨2, "- no time here", [], false, false, false,
          some ⟨none, none, [], ["no", "time", "here"]⟩, none⟩ ∧
      ((⟨⟨"2025-01-15", none, 30, .warning⟩, none, []⟩ :
          AnState).cursorTime = none →
        (⟨missingStartCode⟩ : Diag) ∈
            [(⟨missingStartCode⟩ : Diag)] ∧
          LineStatus.invalid = LineStatus.invalid) := by
  refine ⟨by decide, by decide, ?_⟩
  have h := c5_first_line_anchor c5Doc "2025-01-15" none 1
    ⟨⟨"2025-01-15", none, 30, .warning⟩, none, []⟩
    ⟨"line_1_1643e529", "- no time here", 2, .invalid,
      [⟨missingStartCode⟩],
      some (.task ⟨"no time here", none, 30, none, [], false, false⟩)⟩
    ⟨2, "- no time here", [], false, false, false,
      some ⟨none, none, [], ["no", "time", "here"]⟩, none⟩
    ⟨none, none, [], ["no", "time", "here"]⟩
    (by decide) (by decide) (by decide) (by decide)
  intro hc
  exact ⟨(h.1 hc).1, rfl⟩

/-- The raw record of a non-directive line parsed in scratchpad mode:
no task, and only the preprocessing diagnostics. -/
theorem phase0Step_scratchpad (line : String) (idx : Nat)
    (hnd : (phase0Step .scratchpad idx line).1.directive = none) :
    (phase0Step .scratchpad idx line).1.task = none ∧
      (phase0Step .scratchpad idx line).1.diagnostics =
        preprocessDiags line := by
  by_cases hg : phase0Guard line = true
  · simp only [phase0Step, hg, if_pos] at hnd ⊢
    have hlc := parseLineContent_scratchpad line hnd
    rw [hlc]
    simp
  · simp [phase0Step, hg]

/-- A record with neither task nor directive analyzes to a valid line
with no node, carrying exactly the raw diagnostics. -/
theorem analyzeLineStep_plain (st : AnState) (idx : Nat)
    (rl : ParsedLineRaw) (ht : rl.task = none) (hd : rl.directive = none) :
    (analyzeLineStep st idx rl).1 =
      ⟨generateLineId rl.raw idx, rl.raw, rl.lineNo, .valid,
        rl.diagnostics, none⟩ := by
  unfold analyzeLineStep
  by_cases hbc : (rl.isBlank || rl.isComment) = true
  · simp [hbc]
  · simp [hbc, hd, ht]

/-- C4 (amended to non-directive lines): every non-directive line lying
in a scratchpad section is returned valid, with no semantic node and
with no task diagnostics (at most the preprocessing missing-space
warning), however task-like its text. -/
theorem c4_scratchpad_isolation (doc : List String) (today : String)
    (tz : Option String) (i : Nat) (st : AnState) (pl : ParsedLine)
    (rl : ParsedLineRaw) (sect : SectionMode)
    (hph : (phase0Go .planner 0 doc).get? i = some (rl, sect))
    (hsect : sect = .scratchpad)
    (hnd : rl.directive = none)
    (hline : (analyzeTrace doc today tz).get? i = some (st, pl)) :
    pl.status = .valid ∧ pl.node = none ∧
      ∀ d ∈ pl.diagnostics, d.code = missingSpaceCode := by
  subst hsect
  rw [phase0Go_get?] at hph
  rcases hl : doc.get? i with _ | line
  · rw [hl] at hph; cases hph
  · rw [hl, Option.map_some'] at hph
    injection hph with hph
    injection hph with hrl hsect'
    have hrl' : rl = (phase0Step .scratchpad i line).1 := by
      rw [← hrl, hsect', Nat.zero_add]
    rcases phase0Step_scratchpad line i (by rw [← hrl']; exact hnd)
      with ⟨ht, hdg⟩
    rw [← hrl'] at ht hdg
    rcases analyzeTrace_elim doc today tz i st pl hline
      with ⟨rl2, hraw2, _, hpl⟩
    have hrl2 : rl2 = rl := by
      unfold rawLinesOf at hraw2
      rw [List.get?_map, phase0Go_get?, hl, Option.map_some'] at hraw2
      injection hraw2 with hraw2
      rw [← hraw2, hrl', hsect', Nat.zero_add]
    rw [hrl2] at hpl
    rw [hpl, analyzeLineStep_plain st i rl ht hnd]
    refine ⟨rfl, rfl, ?_⟩
    intro d hd
    rw [hdg] at hd
    have := preprocessDiags_codes line d hd
    rw [this]

/-- Counterexample to C4 as stated: in
`["!scratchpad", "- !tz UTC"]` the second line lies between the
scratchpad directive and the end of the document (no planner directive
follows), yet it is returned with a non-null semantic node — a `tz`
directive node — because directives keep being recognized and applied
inside scratchpad sections. -/
theorem c4_counterexample :
    (phase0Go .planner 0 ["!scratchpad", "- !tz UTC"]).get? 1 =
        some (⟨2, "- !tz UTC", [], false, false, false, none,
          some ⟨"tz", [("tz", "UTC")]⟩⟩, .scratchpad) ∧
      lineNodeAt (analyze ["!scratchpad", "- !tz UTC"] "2025-01-15" none)
          1 = some (some (.directive ⟨"tz", [("tz", "UTC")]⟩)) := by
  decide

def c4Doc : List String := ["!scratchpad", "- 10am fake task, 45m :work"]

/-- Witness for C4 at a task-looking scratchpad line. -/
theorem c4_scratchpad_isolation_witness :
    (phase0Go .planner 0 c4Doc).get? 1 =
        some (⟨2, "- 10am fake task, 45m :work", [], false, false, true,
          none, none⟩, .scratchpad) ∧
      (analyzeTrace c4Doc "2025-01-15" none).get? 1 =
        some (⟨⟨"2025-01-15", none, 30, .warning⟩, none, []⟩,
          ⟨"line_1_61b10f15", "- 10am fake task, 45m :work", 2, .valid,
            [], none⟩) ∧
      ((⟨"line_1_61b10f15", "- 10am fake task, 45m :work", 2, .valid,
          [], none⟩ : ParsedLine).status = .valid ∧
        (⟨"line_1_61b10f15", "- 10am fake task, 45m :work", 2, .valid,
          [], none⟩ : ParsedLine).node = none ∧
        ∀ d ∈ (⟨"line_1_61b10f15", "- 10am fake task, 45m :work", 2,
            .valid, [], none⟩ : ParsedLine).diagnostics,
          d.code = missingSpaceCode) := by
  refine ⟨by decide, by decide, ?_⟩
  exact c4_scratchpad_isolation c4Doc "2025-01-15" none 1
    ⟨⟨"2025-01-15", none, 30, .warning⟩, none, []⟩
    ⟨"line_1_61b10f15", "- 10am fake task, 45m :work", 2, .valid, [],
      none⟩
    ⟨2, "- 10am fake task, 45m :work", [], false, false, true, none,
      none⟩
    .scratchpad (by decide) rfl (by decide) (by decide)

/-- C2: committal and chaining.  A task line advances the cursor to its
node's end and joins the scheduled set exactly when its diagnostics
contain no error-class (`E`-prefixed) code; a line with an error-class
diagnostic leaves the analyzer state untouched (so it never enters later
overlap checks); and a task line without an explicit time token resolves
its start to the end instant of the most recently scheduled valid
task. -/
theorem c2_committal_chaining (doc : List String) (today : String)
    (tz : Option String) (i : Nat) (st : AnState) (pl : ParsedLine)
    (rl : ParsedLineRaw) (tk : RawTaskParts)
    (hline : (analyzeTrace doc today tz).get? i = some (st, pl))
    (hraw : (rawLinesOf doc).get? i = some rl)
    (htk : rl.task = some tk) :
    ((¬ ∃ d ∈ pl.diagnostics, isErrorDiag d = true) ↔
      ((analyzeLineStep st i rl).2.cursorTime =
          (taskNodeOf st tk).endTime ∧
        (taskNodeOf st tk).endTime ≠ none ∧
        (analyzeLineStep st i rl).2.tasks =
          st.tasks ++ [taskNodeOf st tk])) ∧
    ((∃ d ∈ pl.diagnostics, isErrorDiag d = true) →
      (analyzeLineStep st i rl).2 = st) ∧
    (tk.time = none → ∀ rest t, st.tasks = rest ++ [t] →
      (taskNodeOf st tk).start = t.endTime ∧ t.endTime ≠ none) := by
  rcases analyzeTrace_task doc today tz i st pl rl tk hline hraw htk
    with ⟨hpl, hst2⟩
  rcases analyzeTaskStep_commit_iff st rl tk (generateLineId rl.raw i)
    with ⟨hiff, herrst⟩
  rw [← hpl] at hiff herrst
  rw [hst2]
  refine ⟨hiff, herrst, ?_⟩
  intro htime rest t htasks
  have hinv := analyzeTrace_cursorInv doc today tz i st pl hline
  have htne : st.tasks ≠ [] := by
    rw [htasks]; simp
  have hcur : ∃ c, st.cursorTime = some c := by
    rcases hc : st.cursorTime with _ | c
    · exact absurd (hinv.1.mpr hc) htne
    · exact ⟨c, rfl⟩
  rcases hcur with ⟨c, hc⟩
  rcases hinv.2 c hc with ⟨rest', t', htasks', hend'⟩
  have htt : t = t' := by
    have h1 : (rest ++ [t]).getLast? = some t := by
      simp [List.getLast?_append]
    have h2 : (rest' ++ [t']).getLast? = some t' := by
      simp [List.getLast?_append]
    rw [← htasks'] at h2
    rw [← htasks] at h1
    exact Option.some.inj (h1.symm.trans h2)
  have hstart : (taskNodeOf st tk).start = some c := by
    have hpt : parsedTimeOf tk = none := by
      unfold parsedTimeOf; rw [htime]; rfl
    show (startResolution st tk).1 = some c
    unfold startResolution
    rw [hpt, hc]
  rw [hstart, htt, hend']
  exact ⟨rfl, by simp⟩

def c2Doc : List String := ["- 9am, A, 30m", "- B"]

def c2St : AnState :=
  ⟨⟨"2025-01-15", none, 30, .warning⟩, some 28948890,
    [⟨"A", some 28948860, 30, some 28948890, [], true, true⟩]⟩

def c2Tk : RawTaskParts := ⟨none, none, [], ["B"]⟩

def c2Rl : ParsedLineRaw :=
  ⟨2, "- B", [], false, false, false, some c2Tk, none⟩

def c2Pl : ParsedLine :=
  ⟨"line_1_ad0f", "- B", 2, .valid, [],
    some (.task ⟨"B", some 28948890, 30, some 28948920, [], false,
      false⟩)⟩

/-- Witness for C2 at the implicit-start line of `c2Doc`. -/
theorem c2_committal_chaining_witness :
    (analyzeTrace c2Doc "2025-01-15" none).get? 1 = some (c2St, c2Pl) ∧
      (rawLinesOf c2Doc).get? 1 = some c2Rl ∧
      (((¬ ∃ d ∈ c2Pl.diagnostics, isErrorDiag d = true) ↔
        ((analyzeLineStep c2St 1 c2Rl).2.cursorTime =
            (taskNodeOf c2St c2Tk).endTime ∧
          (taskNodeOf c2St c2Tk).endTime ≠ none ∧
          (analyzeLineStep c2St 1 c2Rl).2.tasks =
            c2St.tasks ++ [taskNodeOf c2St c2Tk])) ∧
      ((∃ d ∈ c2Pl.diagnostics, isErrorDiag d = true) →
        (analyzeLineStep c2St 1 c2Rl).2 = c2St) ∧
      (c2Tk.time = none → ∀ rest t, c2St.tasks = rest ++ [t] →
        (taskNodeOf c2St c2Tk).start = t.endTime ∧ t.endTime ≠ none)) :=
  ⟨by decide, by decide,
    c2_committal_chaining c2Doc "2025-01-15" none 1 c2St c2Pl c2Rl c2Tk
      (by decide) (by decide) (by decide)⟩

/-- `checkOverlap` is the half-open interval test against some
previously scheduled task. -/
theorem checkOverlap_iff (tasks : List TaskNode) (s e : Int) :
    checkOverlap tasks s e = true ↔
      ∃ prev ∈ tasks, ∃ ps pe, prev.start = some ps ∧
        prev.endTime = some pe ∧ s < pe ∧ e > ps := by
  unfold checkOverlap
  rw [List.any_eq_true]
  constructor
  · rintro ⟨t, ht, hm⟩
    rcases hts : t.start with _ | ps <;> rw [hts] at hm
    · cases hm
    · rcases hte : t.endTime with _ | pe <;> rw [hte] at hm
      · cases hm
      · simp only [Bool.and_eq_true, decide_eq_true_eq] at hm
        exact ⟨t, ht, ps, pe, hts, hte, hm.1, hm.2⟩
  · rintro ⟨t, ht, ps, pe, hts, hte, h1, h2⟩
    refine ⟨t, ht, ?_⟩
    rw [hts, hte]
    simp only [Bool.and_eq_true, decide_eq_true_eq]
    exact ⟨h1, h2⟩

/-- The overlap block under defined instants. -/
theorem overlapDiagsOf_eq (st : AnState) (tk : RawTaskParts) (s e : Int)
    (hs : startOf st tk = some s) (he : endOf st tk = some e) :
    overlapDiagsOf st tk =
      (if st.ctx.overlapPolicy ≠ .ignore ∧ checkOverlap st.tasks s e then
        [⟨if st.ctx.overlapPolicy = .error then overlapErrorCode
          else overlapWarningCode⟩]
      else []) := by
  unfold overlapDiagsOf
  rw [hs, he]

/-- The start-resolution block emits either nothing or exactly the
missing-start error. -/
theorem startResolution_diags_cases (st : AnState) (tk : RawTaskParts) :
    (startResolution st tk).2.2 = [] ∨
      (startResolution st tk).2.2 = [⟨missingStartCode⟩] := by
  unfold startResolution
  rcases parsedTimeOf tk with _ | v
  · rcases st.cursorTime with _ | c
    · right; rfl
    · left; rfl
  · rcases v with _ | v'
    · rcases st.cursorTime with _ | c
      · right; rfl
      · left; rfl
    · left; rfl

/-- An overlap-coded diagnostic in a task line's diagnostics comes from
the overlap block and from nowhere else. -/
theorem taskDiags_overlap_mem (st : AnState) (rl : ParsedLineRaw)
    (tk : RawTaskParts)
    (hraw : ∀ d ∈ rl.diagnostics,
      d.code ≠ overlapErrorCode ∧ d.code ≠ overlapWarningCode)
    (d : Diag)
    (hcode : d.code = overlapErrorCode ∨ d.code = overlapWarningCode) :
    d ∈ taskDiagsOf st rl tk ↔ d ∈ overlapDiagsOf st tk := by
  have hbt : (match parsedTimeOf tk with
      | some none => [(⟨badTimeCode⟩ : Diag)] | _ => []) = [] ∨
      (match parsedTimeOf tk with
      | some none => [(⟨badTimeCode⟩ : Diag)] | _ => []) =
        [⟨badTimeCode⟩] := by
    rcases parsedTimeOf tk with _ | v
    · left; rfl
    · rcases v with _ | v'
      · right; rfl
      · left; rfl
  have hbd : (match parsedDurationOf tk with
      | some none => [(⟨badDurationCode⟩ : Diag)] | _ => []) = [] ∨
      (match parsedDurationOf tk with
      | some none => [(⟨badDurationCode⟩ : Diag)] | _ => []) =
        [⟨badDurationCode⟩] := by
    rcases parsedDurationOf tk with _ | v
    · left; rfl
    · rcases v with _ | v'
      · right; rfl
      · left; rfl
  unfold taskDiagsOf
  simp only [List.append_assoc, List.mem_append]
  constructor
  · intro h
    rcases h with h | h | h | h | h | h
    · rcases hraw d h with ⟨h1, h2⟩
      rcases hcode with hc | hc
      · exact absurd hc h1
      · exact absurd hc h2
    · rcases hbt with hcase | hcase <;> rw [hcase] at h
      · cases h
      · simp only [List.mem_singleton] at h
        subst h
        rcases hcode with hc | hc <;> exact absurd hc (by decide)
    · rcases hbd with hcase | hcase <;> rw [hcase] at h
      · cases h
      · simp only [List.mem_singleton] at h
        subst h
        rcases hcode with hc | hc <;> exact absurd hc (by decide)
    · have hcat := parseCategories_diag_codes tk.categories d h
      rcases hcode with hc | hc <;> rw [hc] at hcat <;>
        exact absurd hcat (by decide)
    · rcases startResolution_diags_cases st tk with hcase | hcase <;>
        rw [hcase] at h
      · cases h
      · simp only [List.mem_singleton] at h
        subst h
        rcases hcode with hc | hc <;> exact absurd hc (by decide)
    · exact h
  · intro h
    right; right; right; right; right
    exact h

/-- C3: for a task line whose node has resolved start and end instants,
an overlap diagnostic is present iff the half-open interval test
(`start < otherEnd && end > otherStart`) succeeds against at least one
previously scheduled task while the policy is not `ignore`; the code is
`E030-overlap` under `error`, `W010-overlap` under `warning`, and no
overlap diagnostic appears under `ignore`. -/
theorem c3_overlap_detection (doc : List String) (today : String)
    (tz : Option String) (i : Nat) (st : AnState) (pl : ParsedLine)
    (rl : ParsedLineRaw) (tk : RawTaskParts) (s e : Int)
    (hline : (analyzeTrace doc today tz).get? i = some (st, pl))
    (hraw : (rawLinesOf doc).get? i = some rl)
    (htk : rl.task = some tk)
    (hs : (taskNodeOf st tk).start = some s)
    (he : (taskNodeOf st tk).endTime = some e) :
    ((∃ d ∈ pl.diagnostics,
        d.code = overlapErrorCode ∨ d.code = overlapWarningCode) ↔
      (st.ctx.overlapPolicy ≠ .ignore ∧
        ∃ prev ∈ st.tasks, ∃ ps pe, prev.start = some ps ∧
          prev.endTime = some pe ∧ s < pe ∧ e > ps)) ∧
    (st.ctx.overlapPolicy = .error →
      ((⟨overlapErrorCode⟩ : Diag) ∈ pl.diagnostics ↔
        checkOverlap st.tasks s e = true)) ∧
    (st.ctx.overlapPolicy = .warning →
      ((⟨overlapWarningCode⟩ : Diag) ∈ pl.diagnostics ↔
        checkOverlap st.tasks s e = true)) ∧
    (st.ctx.overlapPolicy = .ignore →
      ¬ ∃ d ∈ pl.diagnostics,
        d.code = overlapErrorCode ∨ d.code = overlapWarningCode) := by
  rcases analyzeTrace_task doc today tz i st pl rl tk hline hraw htk
    with ⟨hpl, _⟩
  have hdiags : pl.diagnostics = taskDiagsOf st rl tk := by rw [hpl]; rfl
  have hs' : startOf st tk = some s := hs
  have he' : endOf st tk = some e := he
  have hrawcodes : ∀ d ∈ rl.diagnostics,
      d.code ≠ overlapErrorCode ∧ d.code ≠ overlapWarningCode := by
    intro d hd
    rcases rawLines_diag_codes doc i rl hraw d hd with h | h | h | h | h <;>
      rw [h] <;> exact ⟨by decide, by decide⟩
  have hov := overlapDiagsOf_eq st tk s e hs' he'
  have hmem := taskDiags_overlap_mem st rl tk hrawcodes
  refine ⟨?_, ?_, ?_, ?_⟩
  · constructor
    · rintro ⟨d, hd, hcode⟩
      rw [hdiags] at hd
      have hdo := (hmem d hcode).mp hd
      rw [hov] at hdo
      by_cases hcond : st.ctx.overlapPolicy ≠ .ignore ∧
          checkOverlap st.tasks s e = true
      · exact ⟨hcond.1, (checkOverlap_iff _ _ _).mp hcond.2⟩
      · rw [if_neg hcond] at hdo; cases hdo
    · rintro ⟨hpol, hexists⟩
      have hchk := (checkOverlap_iff st.tasks s e).mpr hexists
      refine ⟨⟨if st.ctx.overlapPolicy = .error then overlapErrorCode
        else overlapWarningCode⟩, ?_, ?_⟩
      · rw [hdiags]
        apply (hmem _ ?_).mpr
        · rw [hov, if_pos ⟨hpol, hchk⟩]; simp
        · by_cases hperr : st.ctx.overlapPolicy = .error
          · left; simp [hperr]
          · right; simp [hperr]
      · by_cases hperr : st.ctx.overlapPolicy = .error
        · left; simp [hperr]
        · right; simp [hperr]
  · intro hperr
    constructor
    · intro hd
      rw [hdiags] at hd
      have hdo := (hmem _ (Or.inl rfl)).mp hd
      rw [hov] at hdo
      by_cases hcond : st.ctx.overlapPolicy ≠ .ignore ∧
          checkOverlap st.tasks s e = true
      · exact hcond.2
      · rw [if_neg hcond] at hdo; cases hdo
    · intro hchk
      rw [hdiags]
      apply (hmem _ (Or.inl rfl)).mpr
      rw [hov, if_pos ⟨by rw [hperr]; decide, hchk⟩]
      simp [hperr, overlapErrorCode]
  · intro hpwarn
    constructor
    · intro hd
      rw [hdiags] at hd
      have hdo := (hmem _ (Or.inr rfl)).mp hd
      rw [hov] at hdo
      by_cases hcond : st.ctx.overlapPolicy ≠ .ignore ∧
          checkOverlap st.tasks s e = true
      · exact hcond.2
      · rw [if_neg hcond] at hdo; cases hdo
    · intro hchk
      rw [hdiags]
      apply (hmem _ (Or.inr rfl)).mpr
      rw [hov, if_pos ⟨by rw [hpwarn]; decide, hchk⟩]
      simp [hpwarn, overlapWarningCode]
  · intro hpig
    rintro ⟨d, hd, hcode⟩
    rw [hdiags] at hd
    have hdo := (hmem d hcode).mp hd
    rw [hov, if_neg (by rw [hpig]; simp)] at hdo
    cases hdo

def c3Doc : List String := ["- 9am, A, 1h", "- 9:30am, B"]

def c3St : AnState :=
  ⟨⟨"2025-01-15", none, 30, .warning⟩, some 28948920,
    [⟨"A", some 28948860, 60, some 28948920, [], true, true⟩]⟩

def c3Tk : RawTaskParts := ⟨some "9:30am", none, [], ["B"]⟩

def c3Rl : ParsedLineRaw :=
  ⟨2, "- 9:30am, B", [], false, false, false, some c3Tk, none⟩

def c3Pl : ParsedLine :=
  ⟨"line_1_22f1faf1", "- 9:30am, B", 2, .validWithWarnings,
    [⟨overlapWarningCode⟩],
    some (.task ⟨"B", some 28948890, 30, some 28948920, [], true,
      false⟩)⟩

/-- Witness for C3 at an overlapping pair under the default `warning`
policy. -/
theorem c3_overlap_detection_witness :
    (analyzeTrace c3Doc "2025-01-15" none).get? 1 = some (c3St, c3Pl) ∧
      (rawLinesOf c3Doc).get? 1 = some c3Rl ∧
      (taskNodeOf c3St c3Tk).start = some 28948890 ∧
      (taskNodeOf c3St c3Tk).endTime = some 28948920 ∧
      (((∃ d ∈ c3Pl.diagnostics,
          d.code = overlapErrorCode ∨ d.code = overlapWarningCode) ↔
        (c3St.ctx.overlapPolicy ≠ .ignore ∧
          ∃ prev ∈ c3St.tasks, ∃ ps pe, prev.start = some ps ∧
            prev.endTime = some pe ∧ (28948890 : Int) < pe ∧
            (28948920 : Int) > ps)) ∧
      (c3St.ctx.overlapPolicy = .error →
        ((⟨overlapErrorCode⟩ : Diag) ∈ c3Pl.diagnostics ↔
          checkOverlap c3St.tasks 28948890 28948920 = true)) ∧
      (c3St.ctx.overlapPolicy = .warning →
        ((⟨overlapWarningCode⟩ : Diag) ∈ c3Pl.diagnostics ↔
          checkOverlap c3St.tasks 28948890 28948920 = true)) ∧
      (c3St.ctx.overlapPolicy = .ignore →
        ¬ ∃ d ∈ c3Pl.diagnostics,
          d.code = overlapErrorCode ∨ d.code = overlapWarningCode)) :=
  ⟨by decide, by decide, by decide, by decide,
    c3_overlap_detection c3Doc "2025-01-15" none 1 c3St c3Pl c3Rl c3Tk
      28948890 28948920 (by decide) (by decide) (by decide) (by decide)
      (by decide)⟩

/-- C7: shifting a parsed time string carries minutes and hours exactly,
wrapping modulo 24 hours in both directions — the result is the
wall-clock value congruent to `input + offset` in `[0, 24h)`, rendered
in the input's own textual style; in particular `"23:45" + 30m = "00:15"`
and `"00:15" - 30m = "23:45"`, both in 24-hour `HH:MM` style. -/
theorem c7_day_boundary_wraparound :
    (∀ (timeStr : String) (offset : TimeOffset) (h m : Nat)
        (fmt : TimeFormat),
      parseTimeString timeStr = ⟨true, some h, some m, some fmt⟩ →
      ∃ h' m', applyTimeOffsetToTimeString timeStr offset =
          ⟨true, some (formatTimeString h' m' fmt), none⟩ ∧
        h' < 24 ∧ m' < 60 ∧
        ((h' : Int) * 60 + (m' : Int)) =
          ((h : Int) * 60 + (m : Int) + offset.signedTotal).emod 1440) ∧
    parseTimeString "23:45" = ⟨true, some 23, some 45, some .clock24⟩ ∧
    applyTimeOffsetToTimeString "23:45" ⟨0, 30, 1⟩ =
      ⟨true, some "00:15", none⟩ ∧
    parseTimeString "00:15" = ⟨true, some 0, some 15, some .clock24⟩ ∧
    applyTimeOffsetToTimeString "00:15" ⟨0, 30, -1⟩ =
      ⟨true, some "23:45", none⟩ := by
  refine ⟨?_, by decide, by decide, by decide, by decide⟩
  intro timeStr offset h m fmt hparse
  refine ⟨(((h : Int) +
      ((m : Int) + offset.signedTotal).ediv 60).emod 24).toNat,
    (((m : Int) + offset.signedTotal).emod 60).toNat, ?_, ?_, ?_, ?_⟩
  · unfold applyTimeOffsetToTimeString
    rw [hparse]
  · have hemod : ∀ a b : Int, a.emod b = a % b := fun _ _ => rfl
    have hediv : ∀ a b : Int, a.ediv b = a / b := fun _ _ => rfl
    simp only [hemod, hediv]
    omega
  · have hemod : ∀ a b : Int, a.emod b = a % b := fun _ _ => rfl
    simp only [hemod]
    omega
  · have hemod : ∀ a b : Int, a.emod b = a % b := fun _ _ => rfl
    have hediv : ∀ a b : Int, a.ediv b = a / b := fun _ _ => rfl
    simp only [hemod, hediv]
    omega

/-- Witness for C7's universal clause at `"9am" + 45m`. -/
theorem c7_day_boundary_wraparound_witness :
    parseTimeString "9am" = ⟨true, some 9, some 0, some .clock12⟩ ∧
      (∃ h' m', applyTimeOffsetToTimeString "9am" ⟨0, 45, 1⟩ =
          ⟨true, some (formatTimeString h' m' .clock12), none⟩ ∧
        h' < 24 ∧ m' < 60 ∧
        ((h' : Int) * 60 + (m' : Int)) =
          ((9 : Int) * 60 + (0 : Int) +
            (⟨0, 45, 1⟩ : TimeOffset).signedTotal).emod 1440) :=
  ⟨by decide,
    c7_day_boundary_wraparound.1 "9am" ⟨0, 45, 1⟩ 9 0 .clock12
      (by decide)⟩

/-- C8 (amended): validation accepts exactly the offset strings matching
the spec grammar (a sign, then an hour count with hour unit and/or a
minute count with minute unit, at least one present) with nonzero total
magnitude not exceeding 12 hours; an over-12-hour offset is rejected
with a magnitude message distinct from the plain format-error message;
but a grammar-matching ZERO-magnitude offset is rejected with the SAME
plain format-error message as malformed input (`parseTimeOffset`
collapses it to `null` before validation can tell the cases apart); and
every failing `executeTimeShift` carries `success = false`, an error
message, and no new line text. -/
theorem c8_offset_validation :
    (∀ s : String, (validateTimeOffset s).valid = true ↔
        ∃ o, specOffsetGrammar s o ∧ 0 < o.hours * 60 + o.minutes ∧
          o.hours * 60 + o.minutes ≤ 720) ∧
    (∀ (s : String) (o : TimeOffset), parseTimeOffset s = some o →
        o.hours * 60 + o.minutes > 720 →
        validateTimeOffset s = ⟨false, some offsetTooLargeMsg⟩) ∧
    (∀ (s : String) (o : TimeOffset), specOffsetGrammar s o →
        o.hours = 0 → o.minutes = 0 →
        validateTimeOffset s = ⟨false, some offsetFormatErrorMsg⟩) ∧
    offsetTooLargeMsg ≠ offsetFormatErrorMsg ∧
    (∀ (line : ParsedLine) (offset : String) (allLines : List ParsedLine),
        (executeTimeShift line offset allLines).success = false →
        (executeTimeShift line offset allLines).newLineContent = none ∧
          (executeTimeShift line offset allLines).error ≠ none) := by
  refine ⟨validateTimeOffset_valid_iff, validateTimeOffset_tooLarge, validateTimeOffset_zero_format, by decide, ?_⟩
  intro line offset allLines hf
  rcases executeTimeShift_shape line offset allLines with ⟨nl, aff, he⟩ | ⟨msg, he⟩
  · rw [he] at hf; simp at hf
  · rw [he]; exact ⟨rfl, by simp⟩

/-- C8 counterexample: the zero-magnitude offset `"+0m"` matches the
spec offset grammar, yet it is rejected with the SAME plain
format-error message as the syntactically malformed `"abc"` — not with
a magnitude message distinct from the plain format error, refuting the
claim's zero-magnitude clause. -/
theorem c8_counterexample :
    validateTimeOffset "+0m" = ⟨false, some offsetFormatErrorMsg⟩ ∧
      validateTimeOffset "abc" = ⟨false, some offsetFormatErrorMsg⟩ ∧
      ∃ o, specOffsetGrammar "+0m" o ∧ o.hours * 60 + o.minutes = 0 := by
  refine ⟨by decide, by decide, ⟨0, 0, 1⟩, ?_, rfl⟩
  exact ⟨'+', [], ['0', 'm'], rfl, Or.inl rfl, Or.inl ⟨rfl, rfl⟩,
    Or.inr ⟨['0'], by decide, by decide, rfl, rfl⟩, by simp, by decide⟩

/-- Witness for C8 at `"+90m"` (accepted), `"+13h"` (magnitude
message), `"+0m"` (format message), and a failing shift on a non-task
line. -/
theorem c8_offset_validation_witness :
    (validateTimeOffset "+90m").valid = true ∧
      validateTimeOffset "+13h" = ⟨false, some offsetTooLargeMsg⟩ ∧
      validateTimeOffset "+0m" = ⟨false, some offsetFormatErrorMsg⟩ ∧
      ((executeTimeShift ⟨"id0", "hello", 1, .valid, [], none⟩ "+15m"
          []).newLineContent = none ∧
        (executeTimeShift ⟨"id0", "hello", 1, .valid, [], none⟩ "+15m"
          []).error ≠ none) := by
  refine ⟨?_, ?_, ?_, ?_⟩
  · exact (c8_offset_validation.1 "+90m").mpr
      ⟨⟨0, 90, 1⟩, ⟨'+', [], ['9', '0', 'm'], rfl, Or.inl rfl,
        Or.inl ⟨rfl, rfl⟩, Or.inr ⟨['9', '0'], by decide, by decide, rfl,
          by decide⟩, by simp, by decide⟩, by decide, by decide⟩
  · exact c8_offset_validation.2.1 "+13h" ⟨13, 0, 1⟩ (by decide) (by decide)
  · exact c8_offset_validation.2.2.1 "+0m" ⟨0, 0, 1⟩
      ⟨'+', [], ['0', 'm'], rfl, Or.inl rfl, Or.inl ⟨rfl, rfl⟩,
        Or.inr ⟨['0'], by decide, by decide, rfl, rfl⟩, by simp, by decide⟩
      rfl rfl
  · exact c8_offset_validation.2.2.2.2 ⟨"id0", "hello", 1, .valid, [], none⟩
      "+15m" [] (by decide)

/-- C6: shifting the analyzed line `"- 9am, Task, 30m"` by `"+15m"`
succeeds with exactly `"- 9:15am, Task, 30m"`; and for every task line
whose task has an inherited (non-explicit) but resolved start, shifting
inserts the rendered shifted time right after the dash marker, followed
by `", "`, leaving every original byte after the marker unchanged. -/
theorem c6_time_shift_round_trip :
    ((analyze ["- 9am, Task, 30m"] "2025-01-15" none).lines.get? 0).map
        (fun pl => executeTimeShift pl "+15m" []) =
      some ⟨true, some "- 9:15am, Task, 30m", none, some []⟩ ∧
    (∀ (rawLine : String) (task : TaskNode) (offset : String)
        (po : TimeOffset) (s : Int) (ws1 ws2 content : List Char),
      parseTimeOffset offset = some po →
      task.explicitStart = false → task.start = some s →
      rawLine.data = ws1 ++ '-' :: (ws2 ++ content) →
      (∀ c ∈ ws1, isWs c = true) → (∀ c ∈ ws2, isWs c = true) →
      (∀ c, content.head? = some c → isWs c = false) →
      shiftTaskTime rawLine task offset =
        ⟨true, some ⟨ws1 ++ '-' :: (ws2 ++
            (formatTimeForInsertion (s + po.signedTotal)).data ++
            ", ".data ++ content)⟩, none, none⟩) := by
  refine ⟨by decide, ?_⟩
  intro rawLine task offset po s ws1 ws2 content hpo hexp hstart hdata
    hws1 hws2 hhead
  have htw : (ws1 ++ '-' :: (ws2 ++ content)).takeWhile isWs = ws1 :=
    takeWhile_append_not isWs ws1 '-' (ws2 ++ content) hws1 (by decide)
  have hdw : (ws1 ++ '-' :: (ws2 ++ content)).dropWhile isWs =
      '-' :: (ws2 ++ content) :=
    dropWhile_append_not isWs ws1 '-' (ws2 ++ content) hws1 (by decide)
  have htw2 : (ws2 ++ content).takeWhile isWs = ws2 := by
    rcases hcontent : content with _ | ⟨c, cs⟩
    · rw [List.append_nil]
      exact takeWhile_all isWs ws2 hws2
    · exact takeWhile_append_not isWs ws2 c cs hws2
        (hhead c (by rw [hcontent]; rfl))
  have hdw2 : (ws2 ++ content).dropWhile isWs = content := by
    rcases hcontent : content with _ | ⟨c, cs⟩
    · rw [List.append_nil]
      exact dropWhile_all isWs ws2 hws2
    · exact dropWhile_append_not isWs ws2 c cs hws2
        (hhead c (by rw [hcontent]; rfl))
  have hdash : dashSplit rawLine.data = some (ws1 ++ '-' :: ws2, content) := by
    unfold dashSplit
    rw [hdata, htw, hdw]
    simp only []
    rw [htw2, hdw2]
  unfold shiftTaskTime
  rw [hpo]
  simp only []
  rw [if_neg (by simp [hexp])]
  rw [if_pos (show (!task.explicitStart : Bool) = true ∧
    task.start.isSome = true from by simp [hexp, hstart])]
  rw [hstart]
  simp only []
  rw [hdash]
  simp only []
  congr 2
  simp

/-- Witness for C6's insertion clause at `" - Task"` with start 9:00
shifted by `+15m`. -/
theorem c6_time_shift_round_trip_witness :
    shiftTaskTime " - Task"
        ⟨"Task", some 540, 30, some 570, [], false, false⟩ "+15m" =
      ⟨true, some ⟨[' '] ++ '-' :: ([' '] ++
          (formatTimeForInsertion (540 +
            (⟨0, 15, 1⟩ : TimeOffset).signedTotal)).data ++
          ", ".data ++ ['T', 'a', 's', 'k'])⟩, none, none⟩ ∧
      formatTimeForInsertion (540 +
          (⟨0, 15, 1⟩ : TimeOffset).signedTotal) = "9:15am" :=
  ⟨c6_time_shift_round_trip.2 " - Task" ⟨"Task", some 540, 30, some 570, [], false, false⟩
      "+15m" ⟨0, 15, 1⟩ 540 [' '] [' '] ['T', 'a', 's', 'k'] (by decide)
      rfl rfl (by decide) (by decide) (by decide)
      (fun c hc => by
        simp only [List.head?_cons, Option.some.injEq] at hc
        subst hc
        decide),
    by decide⟩

/-- C9 (amended): `executeBatchTimeShift` computes every line's shift
independently against the same snapshot and the per-id result map holds
each line's own `executeTimeShift` outcome, so one line's failure does
not block another's entry in the batch map; but the service-level
`shiftMultipleLines` is all-or-nothing: whenever the batch reports any
failure it returns `success = false` with an EMPTY result map and no
content, so successfully shifted lines' texts are not reported. -/
theorem c9_batch_independence :
    (∀ (lines : List ParsedLine) (offset : String) (l : ParsedLine),
      (validateTimeOffset offset).valid = true →
      (lines.map (fun pl => pl.id)).Nodup →
      l ∈ lines →
      (executeBatchTimeShift lines offset).results.lookup l.id =
        some (executeTimeShift l offset lines)) ∧
    (∀ (content : String) (lineNumbers : List Nat) (offset : String)
        (today : String) (timezone : Option String),
      (validateTimeOffset offset).valid = true →
      (executeBatchTimeShift
          (lineNumbers.filterMap fun n =>
            (parseAndAnalyze content today timezone).lines.get? (n - 1))
          offset).success = false →
      shiftMultipleLines content lineNumbers offset today timezone =
        ⟨false, none,
          (executeBatchTimeShift
            (lineNumbers.filterMap fun n =>
              (parseAndAnalyze content today timezone).lines.get? (n - 1))
            offset).error, []⟩) := by
  constructor
  · intro lines offset l hv hnd hl
    unfold executeBatchTimeShift
    rw [if_neg (by simp [hv])]
    simp only []
    exact foldl_mapSet_lookup (fun line => executeTimeShift line offset lines)
      lines [] l hl hnd
  · intro content lineNumbers offset today timezone hv hfail
    unfold shiftMultipleLines
    rw [if_neg (by simp [hv])]
    simp only []
    rw [if_pos (by simpa using hfail)]

/-- C9 counterexample: in the document `"- 9am, A, 30m\nB"` line 1
shifts successfully on its own, yet `shiftMultipleLines` over lines 1
and 2 returns an empty result map and no content — line 1's new text is
not reported, refuting the claim's merge-by-line-number promise at the
service level. -/
theorem c9_counterexample :
    shiftMultipleLines "- 9am, A, 30m\nB" [1, 2] "+15m" "2025-01-15" none =
      ⟨false, none, some "Some lines failed to shift", []⟩ ∧
    ((parseAndAnalyze "- 9am, A, 30m\nB" "2025-01-15" none).lines.get? 0).map
        (fun pl => (executeTimeShift pl "+15m"
          (parseAndAnalyze "- 9am, A, 30m\nB" "2025-01-15" none).lines).success) =
      some true := ⟨by decide, by decide⟩

/-- Witness for C9: the batch map at two distinct non-task lines, and
the service-level empty result on the counterexample document. -/
theorem c9_batch_independence_witness :
    ((validateTimeOffset "+15m").valid = true ∧
      ((List.map (fun pl => pl.id)
        [(⟨"idA", "x", 1, .valid, [], none⟩ : ParsedLine),
         ⟨"idB", "y", 2, .valid, [], none⟩]).Nodup) ∧
      (executeBatchTimeShift
          [(⟨"idA", "x", 1, .valid, [], none⟩ : ParsedLine),
           ⟨"idB", "y", 2, .valid, [], none⟩] "+15m").results.lookup "idA" =
        some (executeTimeShift ⟨"idA", "x", 1, .valid, [], none⟩ "+15m"
          [⟨"idA", "x", 1, .valid, [], none⟩,
           ⟨"idB", "y", 2, .valid, [], none⟩])) ∧
    shiftMultipleLines "- 9am, A, 30m\nB" [1, 2] "+15m" "2025-01-15" none =
      ⟨false, none,
        (executeBatchTimeShift
          (([1, 2] : List Nat).filterMap fun n =>
            (parseAndAnalyze "- 9am, A, 30m\nB" "2025-01-15" none).lines.get?
              (n - 1))
          "+15m").error, []⟩ :=
  ⟨⟨by decide, by decide,
    c9_batch_independence.1 _ "+15m" ⟨"idA", "x", 1, .valid, [], none⟩ (by decide)
      (by decide) (by decide)⟩,
    c9_batch_independence.2 "- 9am, A, 30m\nB" [1, 2] "+15m" "2025-01-15" none (by decide)
      (by decide)⟩

/-- C1 (amended): section directives are forward-only — inserting
`!scratchpad` or `!planner` anywhere leaves every preceding line's
analysis unchanged — but configuration directives are applied to the
context in a pre-scan before per-line analysis and so reach lines ABOVE
them: a `!default duration=45m` on line 2 resolves the implicit
duration of the task on line 1 to 45 minutes, against 30 when the
directive line is absent. -/
theorem c1_directive_forward_only :
    (∀ (pre post : List String) (ins today : String) (tz : Option String),
      ins = "!scratchpad" ∨ ins = "!planner" →
      (analyze (pre ++ ins :: post) today tz).lines.take pre.length =
        (analyze (pre ++ post) today tz).lines.take pre.length) ∧
    nodeDurationAt (analyze ["- 9am, A", "!default duration=45m"]
        "2025-01-15" none) 0 = some 45 ∧
    nodeDurationAt (analyze ["- 9am, A"] "2025-01-15" none) 0 = some 30 :=
  ⟨analyze_section_insert_take, by decide, by decide⟩

/-- C1 counterexample: a `!policy overlaps=ignore` directive on line 3
suppresses the overlap warning of line 2 ABOVE it — the analysis of a
preceding line is not identical to what it would be with the directive
line absent, refuting the claim's strict forwardness. -/
theorem c1_counterexample :
    lineDiagsAt (analyze ["- 9am, A, 1h", "- 9:30am, B",
        "!policy overlaps=ignore"] "2025-01-15" none) 1 = some [] ∧
      lineDiagsAt (analyze ["- 9am, A, 1h", "- 9:30am, B"] "2025-01-15"
        none) 1 = some [⟨overlapWarningCode⟩] :=
  ⟨by decide, by decide⟩

/-- Witness for C1's insertion clause: `!scratchpad` inserted between
two task lines leaves the first line's analysis unchanged. -/
theorem c1_directive_forward_only_witness :
    (analyze ["- 9am, A, 30m", "!scratchpad", "- B"] "2025-01-15"
        none).lines.take 1 =
      (analyze ["- 9am, A, 30m", "- B"] "2025-01-15" none).lines.take 1 :=
  c1_directive_forward_only.1 ["- 9am, A, 30m"] ["- B"] "!scratchpad" "2025-01-15" none
    (Or.inl rfl)

end Lemmas

end Tempoest
